import Mathlib

/-!
# cmd/noms/noms_cmd.go : the interactive `log` pipeline and the line reader

A shallow embedding of two functions of `noms_cmd.go`.

* `readFromRL` (lines 141-161) is sequential; it is embedded as a function on
  the list of results the successive `rl.Readline()` calls return.

* `nomsCmdLog` (lines 163-214) starts one producer goroutine and one render
  goroutine per commit, and drains the results on the calling goroutine.  It
  is embedded as a small-step transition system.  The state holds the shared
  variables (`done`, `displayed`, the iterator, the channel `bytesChan`, one
  record per channel made at line 186) together with the program counter and
  the locals of every goroutine.  An `Action` names the goroutine that takes
  the next step (and, for `io.Copy`, what the pager answers), so every
  interleaving and every pager behaviour is a list of actions.  Steps are the
  individual statements of the source; accesses to the shared variables are
  sequentially consistent.

Things declared outside the file (`parallelism`, `printCommit`,
`NewCommitIterator`, `datas.IsCommit`, the database entry of the dataset) are
fields of `Config`.  `db.GetDataset` (line 166) is a function of `go/datas`; it
panics on a dataset id that is not well formed and on a dataset whose value is
not a commit, and the panic leaves `nomsCmdLog` (the caller recovers it in
`try`).  The history is finite, so the iterator yields a list of nodes.
`bytesChan` is a buffered channel: the model is that of `parallelism ≥ 1`, and
the results that depend on the channel making progress assume it.  The pager
is started before the loops and stopped at the return (lines 200-201); of the
pager only the writes of `io.Copy` are modelled, each of which may succeed or
fail after any number of bytes.  A `printCommit` that fails is one that
returns an error.
-/

namespace Noms

/-! ## Data -/

/-- A byte slice (`[]byte`); a byte is a natural number. -/
abbrev Bytes := List Nat

/-- A `LogNode`, one commit yielded by the commit iterator (an identity). -/
abbrev LogNode := Nat

/-- A `types.Value` (an identity). -/
abbrev Value := Nat

/-- A Go `error` value (its message). -/
structure GoError where
  msg : String
  deriving DecidableEq

/-! ## readFromRL -/

/-- The part of a `*readline.Instance` that `readFromRL` uses: the results of
the coming `Readline()` calls, in order, and the current prompt.  When `input`
is exhausted `Readline()` does not return. -/
structure Readline where
  input : List (Except GoError String)
  prompt : String

/-- Lines 150-154: `for _, c := range line { if c == '"' { quoteCount++ } }`. -/
def countQuotes (line : String) (quoteCount : Nat) : Nat :=
  line.data.foldl (fun q c => if c = '"' then q + 1 else q) quoteCount

/-- Lines 145-160: the `for` loop of `readFromRL`, with the locals `quoteCount`
and `res`.  The result is `none` when `Readline()` never returns; otherwise
the pair returned by the `return` statement and the instance after the loop. -/
def readFromRL.loop : List (Except GoError String) → String → Nat → String →
    Option ((String × Option GoError) × Readline)
  | [], _, _, _ => none
  | Except.error err :: rest, prompt, _, _ => some (("", some err), ⟨rest, prompt⟩)
  | Except.ok line :: rest, prompt, quoteCount, res =>
    let quoteCount := countQuotes line quoteCount
    let res := res ++ (line ++ "\n")
    if quoteCount % 2 = 0 then some ((res, none), ⟨rest, prompt⟩)
    else readFromRL.loop rest "... " quoteCount res

/-- Lines 141-161: `readFromRL`.  The deferred `rl.SetPrompt("noms> ")` runs at
every return. -/
def readFromRL (rl : Readline) : Option ((String × Option GoError) × Readline) :=
  match readFromRL.loop rl.input rl.prompt 0 "" with
  | none => none
  | some (r, rl1) => some (r, { rl1 with prompt := "noms> " })

/-- The number of double-quote characters of a line. -/
def quotesOf (line : String) : Nat := line.data.count '"'

/-- The number of double-quote characters of a list of lines. -/
def totalQuotes (lines : List String) : Nat := (lines.map quotesOf).sum

/-- The lines, each followed by a newline, concatenated. -/
def joinLines : List String → String
  | [] => ""
  | l :: ls => (l ++ "\n") ++ joinLines ls

/-! ## nomsCmdLog : configuration and state -/

/-- What `nomsCmdLog` receives, and what it uses from outside the file. -/
structure Config where
  /-- Whether `o.path` is a well-formed dataset id. -/
  validID : Bool
  /-- The value the dataset `o.path` refers to in the database, if any.  It is
  what `ds.MaybeHead()` returns once `db.GetDataset(o.path)` has returned:
  `some v` is `(v, true)`, `none` is `(zero value, false)`. -/
  maybeHead : Option Value
  /-- The function `datas.IsCommit`. -/
  isCommit : Value → Bool
  /-- The nodes that `NewCommitIterator(db, origCommit)` yields through its
  successive `Next()` calls (with `ok = true`); afterwards `Next()` returns
  `ok = false`. -/
  commits : Value → List LogNode
  /-- The call `printCommit(node, path, buff, db, o)`: the bytes it writes to
  `buff`, and whether it reports a failure. -/
  printCommit : LogNode → Bytes × Bool
  /-- The field `o.maxCommits`. -/
  maxCommits : Int
  /-- The constant `parallelism`, the capacity of `bytesChan`. -/
  parallelism : Nat

/-- Program counter of the goroutine started at line 184 (the producer). -/
inductive ProdPc where
  /-- Not started. -/
  | idle
  /-- About to run `ln, ok := iter.Next()` or `ln, ok = iter.Next()` (line 185). -/
  | next
  /-- About to evaluate `!done && ok && displayed < o.maxCommits` (line 185);
  `some n` is `(n, true)`, `none` is `ok = false`. -/
  | cond (ln : Option LogNode)
  /-- About to run `ch := make(chan []byte)` (line 186). -/
  | make (ln : LogNode)
  /-- About to run `bytesChan <- ch` (line 187). -/
  | send (ch : Nat) (ln : LogNode)
  /-- About to run `go func(ch, node) {...}(ch, ln)` (line 189). -/
  | spawn (ch : Nat) (ln : LogNode)
  /-- About to run `displayed++` (line 195). -/
  | incr
  /-- About to run `close(bytesChan)` (line 197). -/
  | close
  /-- Returned. -/
  | exited
  deriving DecidableEq

/-- The state of one channel made at line 186 and of the goroutine of line 189
that sends on it. -/
inductive SlotPc where
  /-- The channel is made, its goroutine is not started. -/
  | created
  /-- The goroutine is running `printCommit` (line 191). -/
  | formatting
  /-- The goroutine is blocked in `ch <- buff.Bytes()` (line 192). -/
  | sending (b : Bytes)
  /-- The value was received (line 204) and the goroutine has returned. -/
  | received
  deriving DecidableEq

/-- A channel made at line 186, with the node it was made for. -/
structure Slot where
  node : LogNode
  pc : SlotPc
  deriving DecidableEq

/-- Program counter of the goroutine that called `nomsCmdLog`. -/
inductive MainPc where
  /-- At line 164, nothing done yet. -/
  | start
  /-- At `for ch := range bytesChan` (line 203). -/
  | range
  /-- At `commitBuff := <-ch` (line 204). -/
  | recv (ch : Nat)
  /-- At `io.Copy(pgr.Writer, bytes.NewReader(commitBuff))` (line 205). -/
  | copy (commitBuff : Bytes)
  /-- At `done = true` (line 207). -/
  | setDone
  /-- At `for range bytesChan` (line 208). -/
  | drain
  /-- Returned, with the value returned. -/
  | returned (err : Option GoError)
  /-- Left by the panic of `db.GetDataset` (line 166): nothing is returned. -/
  | panicked
  deriving DecidableEq

/-- A state of a run of `nomsCmdLog`. -/
structure State where
  /-- Whether `NewCommitIterator` was called (line 174). -/
  iterCreated : Bool
  /-- The nodes `iter` has not yielded yet. -/
  src : List LogNode
  /-- The number of `iter.Next()` calls made. -/
  pulls : Nat
  /-- The variable `displayed`. -/
  displayed : Nat
  /-- The variable `done`. -/
  done : Bool
  /-- The buffer of `bytesChan`: the channels sent and not yet received. -/
  queue : List Nat
  /-- Whether `bytesChan` is closed. -/
  closed : Bool
  /-- The channels made at line 186, in order; channel `i` is `slots[i]`. -/
  slots : List Slot
  ppc : ProdPc
  mpc : MainPc
  /-- What the pager received from each `io.Copy` call, in order. -/
  sink : List Bytes
  /-- Whether an `io.Copy` call returned an error. -/
  sinkErr : Bool
  deriving DecidableEq

/-- The goroutine that takes the next step. -/
inductive Action where
  /-- The calling goroutine runs its next statement (not `io.Copy`). -/
  | main
  /-- The calling goroutine runs `io.Copy`: with `none` the pager takes all the
  bytes and the error is nil, with `some k` the pager takes the first `k`
  bytes and the error is not nil. -/
  | copy (r : Option Nat)
  /-- The producer runs its next statement. -/
  | producer
  /-- The goroutine of channel `i` runs `printCommit` and reaches its send. -/
  | task (i : Nat)
  deriving DecidableEq

/-- The state before `nomsCmdLog` begins. -/
def init : State :=
  { iterCreated := false, src := [], pulls := 0, displayed := 0, done := false,
    queue := [], closed := false, slots := [], ppc := ProdPc.idle, mpc := MainPc.start,
    sink := [], sinkErr := false }

/-- The constant `math.MaxInt32`. -/
def maxInt32 : Int := 2147483647

/-- Lines 176-178: `o.maxCommits` after `if o.maxCommits <= 0 { o.maxCommits = math.MaxInt32 }`. -/
def maxCommitsOf (c : Config) : Int :=
  if c.maxCommits ≤ 0 then maxInt32 else c.maxCommits

/-- Line 171: `fmt.Errorf("%v is not a Commit object", origCommit)`.  Without a
head `origCommit` is the zero `types.Struct`, printed as `{{<nil> [] []}}`; the
text of a value is that of its identity. -/
def notACommit (origCommit : Option Value) : GoError :=
  match origCommit with
  | some v => ⟨toString v ++ " is not a Commit object"⟩
  | none => ⟨"\x7b\x7b<nil> [] []\x7d\x7d is not a Commit object"⟩

/-- Line 166: `db.GetDataset(o.path)`.  `none`: the call panics, which it does
when the dataset id is not well formed and when the value the dataset refers
to is not a commit; `some h`: it returns a dataset whose `MaybeHead()` is `h`. -/
def getDataset (c : Config) : Option (Option Value) :=
  if c.validID = false then none
  else
    match c.maybeHead with
    | none => some none
    | some v => if c.isCommit v then some (some v) else none

/-! ## nomsCmdLog : the steps -/

/-- One statement of the producer goroutine (lines 184-198).  `none`: the
goroutine cannot move (it is blocked, not started, or has returned). -/
def stepProducer (c : Config) (s : State) : Option State :=
  match s.ppc with
  | ProdPc.idle => none
  | ProdPc.next =>
    match s.src with
    | [] => some { s with pulls := s.pulls + 1, ppc := ProdPc.cond none }
    | n :: rest => some { s with src := rest, pulls := s.pulls + 1, ppc := ProdPc.cond (some n) }
  | ProdPc.cond none => some { s with ppc := ProdPc.close }
  | ProdPc.cond (some n) =>
    if s.done = false ∧ (s.displayed : Int) < maxCommitsOf c then some { s with ppc := ProdPc.make n }
    else some { s with ppc := ProdPc.close }
  | ProdPc.make n =>
    some { s with slots := s.slots ++ [⟨n, SlotPc.created⟩], ppc := ProdPc.send s.slots.length n }
  | ProdPc.send ch n =>
    if s.queue.length < c.parallelism then
      some { s with queue := s.queue ++ [ch], ppc := ProdPc.spawn ch n }
    else none
  | ProdPc.spawn ch n =>
    some { s with slots := s.slots.set ch ⟨n, SlotPc.formatting⟩, ppc := ProdPc.incr }
  | ProdPc.incr => some { s with displayed := s.displayed + 1, ppc := ProdPc.next }
  | ProdPc.close => some { s with closed := true, ppc := ProdPc.exited }
  | ProdPc.exited => none

/-- Lines 190-192 up to the send: the goroutine of channel `i` runs
`printCommit` into a fresh buffer and blocks in `ch <- buff.Bytes()`.  What
`printCommit` returns is not used. -/
def stepTask (c : Config) (s : State) (i : Nat) : Option State :=
  match s.slots.get? i with
  | some ⟨n, SlotPc.formatting⟩ =>
    some { s with slots := s.slots.set i ⟨n, SlotPc.sending (c.printCommit n).1⟩ }
  | _ => none

/-- One statement of the calling goroutine other than `io.Copy` (lines 164-213).
The first step runs lines 164-182 and starts the producer: `db.GetDataset`
(line 166) panics or returns the dataset, then the head is tested (lines
169-172), and otherwise the iterator, `displayed`, `bytesChan` and `done` are
set up. -/
def stepMain (c : Config) (s : State) : Option State :=
  match s.mpc with
  | MainPc.start =>
    match getDataset c with
    | none => some { s with mpc := MainPc.panicked }
    | some none => some { s with mpc := MainPc.returned (some (notACommit none)) }
    | some (some origCommit) =>
      if c.isCommit origCommit then
        some { s with iterCreated := true, src := c.commits origCommit, displayed := 0,
                      done := false, ppc := ProdPc.next, mpc := MainPc.range }
      else some { s with mpc := MainPc.returned (some (notACommit (some origCommit))) }
  | MainPc.range =>
    match s.queue with
    | ch :: rest => some { s with queue := rest, mpc := MainPc.recv ch }
    | [] => if s.closed then some { s with mpc := MainPc.returned none } else none
  | MainPc.recv ch =>
    match s.slots.get? ch with
    | some ⟨n, SlotPc.sending b⟩ =>
      some { s with slots := s.slots.set ch ⟨n, SlotPc.received⟩, mpc := MainPc.copy b }
    | _ => none
  | MainPc.copy _ => none
  | MainPc.setDone => some { s with done := true, mpc := MainPc.drain }
  | MainPc.drain =>
    match s.queue with
    | _ :: rest => some { s with queue := rest }
    | [] => if s.closed then some { s with mpc := MainPc.range } else none
  | MainPc.returned _ => none
  | MainPc.panicked => none

/-- Lines 205-206: `io.Copy` and the test of its error. -/
def stepCopy (s : State) (r : Option Nat) : Option State :=
  match s.mpc with
  | MainPc.copy commitBuff =>
    match r with
    | none => some { s with sink := s.sink ++ [commitBuff], mpc := MainPc.range }
    | some k => some { s with sink := s.sink ++ [commitBuff.take k], sinkErr := true,
                              mpc := MainPc.setDone }
  | _ => none

/-- One step of the run. -/
def step (c : Config) (s : State) : Action → Option State
  | Action.main => stepMain c s
  | Action.copy r => stepCopy s r
  | Action.producer => stepProducer c s
  | Action.task i => stepTask c s i

/-- The run under a schedule; `none` when the schedule asks a goroutine that
cannot move. -/
def run (c : Config) : List Action → State → Option State
  | [], s => some s
  | a :: as, s =>
    match step c s a with
    | none => none
    | some t => run c as t

/-- Lines 163-214: the run of `nomsCmdLog` under a schedule: the state reached
from `init`, or `none` when the schedule asks a goroutine that cannot move. -/
def nomsCmdLog (c : Config) (sched : List Action) : Option State := run c sched init

/-! ## nomsCmdLog : observations -/

/-- The nodes of the history: what the iterator yields when `db.GetDataset`
returns a dataset whose head is a commit; no node otherwise. -/
def nodesOf (c : Config) : List LogNode :=
  match getDataset c with
  | some (some h) => c.commits h
  | _ => []

/-- Whether `db.GetDataset` returns a dataset whose head is present and is a
commit (line 166 does not panic and the test of line 170 is false). -/
def headIsCommit (c : Config) : Bool :=
  match getDataset c with
  | some (some _) => true
  | _ => false

/-- The rendering of a node: the bytes `printCommit` leaves in the buffer. -/
def rendering (c : Config) (n : LogNode) : Bytes := (c.printCommit n).1

/-- The limit in force, as a natural number. -/
def limitOf (c : Config) : Nat := (maxCommitsOf c).toNat

/-- The bytes the pager received. -/
def written (s : State) : Bytes := s.sink.flatten

/-- Whether a render goroutine is started and has not delivered its result. -/
def SlotPc.inFlight : SlotPc → Bool
  | SlotPc.formatting => true
  | SlotPc.sending _ => true
  | _ => false

/-- The number of render goroutines started whose result is not delivered. -/
def inFlight (s : State) : Nat := s.slots.countP (fun t => t.pc.inFlight)

/-- Whether the value of a channel made at line 186 is not yet read by the
calling goroutine (line 204). -/
def SlotPc.unread : SlotPc → Bool
  | SlotPc.received => false
  | _ => true

/-- The number of channels made at line 186 whose value the calling goroutine
has not yet read (line 204): those the producer has not sent yet, those in
`bytesChan`, the one taken at line 203 and awaited, and those taken out by the
loop of line 208. -/
def unreadSlots (s : State) : Nat := s.slots.countP (fun t => t.pc.unread)

/-- Whether the call of `nomsCmdLog` is over: it has returned, or it was left
by the panic of line 166. -/
def State.returned (s : State) : Bool :=
  match s.mpc with
  | MainPc.returned _ => true
  | MainPc.panicked => true
  | _ => false

/-! ## nomsCmdLog : the invariant -/

/-- The number of channels sent on `bytesChan` so far. -/
def pushed (s : State) : Nat :=
  match s.ppc with
  | ProdPc.send _ _ => s.slots.length - 1
  | _ => s.slots.length

/-- The number of channels received from `bytesChan` so far. -/
def popped (s : State) : Nat := pushed s - s.queue.length

/-- The number of values received from the channels of line 186 so far. -/
def receivedCount (s : State) : Nat :=
  s.sink.length + (match s.mpc with | MainPc.copy _ => 1 | _ => 0)

/-- What holds at each program point of the producer. -/
def ProdInv (c : Config) (s : State) : Prop :=
  match s.ppc with
  | ProdPc.idle => False
  | ProdPc.next => s.pulls = s.displayed ∧ s.slots.length = s.displayed ∧ s.closed = false
  | ProdPc.cond ln =>
    s.pulls = s.displayed + 1 ∧ s.slots.length = s.displayed ∧ s.closed = false ∧
      ln = (nodesOf c)[s.displayed]?
  | ProdPc.make n =>
    s.pulls = s.displayed + 1 ∧ s.slots.length = s.displayed ∧ s.closed = false ∧
      (nodesOf c)[s.displayed]? = some n ∧ s.displayed < limitOf c
  | ProdPc.send ch n =>
    s.pulls = s.displayed + 1 ∧ s.slots.length = s.displayed + 1 ∧ s.closed = false ∧
      (nodesOf c)[s.displayed]? = some n ∧ s.displayed < limitOf c ∧ ch = s.displayed ∧
      s.slots[s.displayed]? = some ⟨n, SlotPc.created⟩
  | ProdPc.spawn ch n =>
    s.pulls = s.displayed + 1 ∧ s.slots.length = s.displayed + 1 ∧ s.closed = false ∧
      (nodesOf c)[s.displayed]? = some n ∧ s.displayed < limitOf c ∧ ch = s.displayed ∧
      s.slots[s.displayed]? = some ⟨n, SlotPc.created⟩
  | ProdPc.incr =>
    s.pulls = s.displayed + 1 ∧ s.slots.length = s.displayed + 1 ∧ s.closed = false ∧
      s.displayed < (nodesOf c).length ∧ s.displayed < limitOf c
  | ProdPc.close =>
    s.pulls = s.displayed + 1 ∧ s.slots.length = s.displayed ∧ s.closed = false ∧
      (s.sinkErr = false → s.displayed = min (nodesOf c).length (limitOf c))
  | ProdPc.exited =>
    s.pulls = s.displayed + 1 ∧ s.slots.length = s.displayed ∧ s.closed = true ∧
      (s.sinkErr = false → s.displayed = min (nodesOf c).length (limitOf c))

/-- What holds at each program point of the calling goroutine, once the
pipeline is started. -/
def MainInv (c : Config) (s : State) : Prop :=
  match s.mpc with
  | MainPc.start => False
  | MainPc.range =>
    (s.sinkErr = false → popped s = s.sink.length) ∧
      (s.sinkErr = true → s.closed = true ∧ s.queue = [] ∧ s.done = true)
  | MainPc.recv ch => s.sinkErr = false ∧ ch = s.sink.length ∧ popped s = s.sink.length + 1
  | MainPc.copy b =>
    s.sinkErr = false ∧ popped s = s.sink.length + 1 ∧
      ∃ n, (nodesOf c)[s.sink.length]? = some n ∧ b = rendering c n
  | MainPc.setDone => s.sinkErr = true ∧ s.done = false ∧ popped s = s.sink.length
  | MainPc.drain => s.sinkErr = true ∧ s.done = true
  | MainPc.returned r =>
    r = none ∧ s.closed = true ∧ s.queue = [] ∧ (s.sinkErr = false → popped s = s.sink.length) ∧
      (s.sinkErr = true → s.done = true)
  | MainPc.panicked => False

/-- What the pager has received: without a failed write, the renderings of the
first nodes, in order; after a failed write, those and the beginning of the
next rendering. -/
def SinkInv (c : Config) (s : State) : Prop :=
  if s.sinkErr = true then
    ∃ k n, (nodesOf c)[s.sink.length - 1]? = some n ∧ 0 < s.sink.length ∧
      s.sink = ((nodesOf c).take (s.sink.length - 1)).map (rendering c)
        ++ [(rendering c n).take k]
  else s.sink = ((nodesOf c).take s.sink.length).map (rendering c)

/-- What holds of the channel `i` and its goroutine. -/
def SlotInv (c : Config) (s : State) (i : Nat) (t : Slot) : Prop :=
  (nodesOf c)[i]? = some t.node ∧
  (t.pc = SlotPc.received ↔ i < receivedCount s) ∧
  (∀ b, t.pc = SlotPc.sending b → b = rendering c t.node) ∧
  (t.pc = SlotPc.created → i = s.displayed ∧
    (s.ppc = ProdPc.send i t.node ∨ s.ppc = ProdPc.spawn i t.node))

/-- The invariant of the running pipeline. -/
structure Pipe (c : Config) (s : State) : Prop where
  src : s.src = (nodesOf c).drop s.pulls
  dispL : s.displayed ≤ limitOf c
  dispN : s.displayed ≤ (nodesOf c).length
  prod : ProdInv c s
  qcap : s.queue.length ≤ c.parallelism
  qlen : s.queue.length ≤ pushed s
  queue : s.queue = List.range' (popped s) s.queue.length
  done : s.done = true → s.sinkErr = true
  main : MainInv c s
  sink : SinkInv c s
  slots : ∀ i t, s.slots[i]? = some t → SlotInv c s i t
  rcv : receivedCount s ≤ popped s
  fail : s.sinkErr = true → s.done = true →
    s.slots.length + (match s.ppc with | ProdPc.make _ => 1 | _ => 0)
      ≤ s.sink.length + c.parallelism + 1

/-- The invariant of a run of `nomsCmdLog`. -/
def Inv (c : Config) (s : State) : Prop :=
  match s.mpc with
  | MainPc.start => s = init
  | MainPc.returned (some e) =>
    getDataset c = some none ∧ e = notACommit none ∧
      s = { init with mpc := MainPc.returned (some e) }
  | MainPc.panicked => getDataset c = none ∧ s = { init with mpc := MainPc.panicked }
  | _ => headIsCommit c = true ∧ s.iterCreated = true ∧ Pipe c s

/-- The variant of the producer. -/
def ProdPc.rank : ProdPc → Nat
  | ProdPc.idle => 0
  | ProdPc.exited => 0
  | ProdPc.close => 1
  | ProdPc.cond none => 2
  | ProdPc.next => 3
  | ProdPc.incr => 4
  | ProdPc.spawn _ _ => 5
  | ProdPc.send _ _ => 6
  | ProdPc.make _ => 7
  | ProdPc.cond (some _) => 8

/-- The variant of a render goroutine. -/
def SlotPc.rank : SlotPc → Nat
  | SlotPc.created => 3
  | SlotPc.formatting => 2
  | SlotPc.sending _ => 1
  | SlotPc.received => 0

/-- The variant of the calling goroutine. -/
def MainPc.rank (c : Config) : MainPc → Nat
  | MainPc.start => 90 * (nodesOf c).length + 32
  | MainPc.recv _ => 5
  | MainPc.copy _ => 4
  | MainPc.setDone => 3
  | MainPc.drain => 2
  | MainPc.range => 1
  | MainPc.returned _ => 0
  | MainPc.panicked => 0

/-- The variant of the run: every step makes it smaller. -/
def measure (c : Config) (s : State) : Nat :=
  s.mpc.rank c + 10 * (9 * s.src.length + s.ppc.rank) + 8 * s.queue.length
    + (s.slots.map (fun t => t.pc.rank)).sum

/-! ## Concrete runs -/

/-- A history of two commits, `10` and `20`, whose renderings are `[10, 11]` and
`[20, 21]`; no limit; `parallelism = 1`. -/
def cfgTwo : Config where
  validID := true
  maybeHead := some 7
  isCommit := fun _ => true
  commits := fun _ => [10, 20]
  printCommit := fun n => ([n, n + 1], false)
  maxCommits := 0
  parallelism := 1

/-- The history of `cfgTwo` with `maxCommits = 1`. -/
def cfgLimit : Config where
  validID := true
  maybeHead := some 7
  isCommit := fun _ => true
  commits := fun _ => [10, 20]
  printCommit := fun n => ([n, n + 1], false)
  maxCommits := 1
  parallelism := 1

/-- A dataset without a head. -/
def cfgNoHead : Config where
  validID := true
  maybeHead := none
  isCommit := fun _ => true
  commits := fun _ => [10, 20]
  printCommit := fun n => ([n, n + 1], false)
  maxCommits := 0
  parallelism := 1

/-- The history of `cfgTwo` with a `printCommit` that fails on the commit `10`
after writing the byte `10`. -/
def cfgFail : Config where
  validID := true
  maybeHead := some 7
  isCommit := fun _ => true
  commits := fun _ => [10, 20]
  printCommit := fun n => if n = 10 then ([10], true) else ([n, n + 1], false)
  maxCommits := 0
  parallelism := 1

/-- A formatting routine that writes nothing and reports a failure. -/
def cfgEmptyFail : Config where
  validID := true
  maybeHead := some 7
  isCommit := fun _ => true
  commits := fun _ => [10, 20]
  printCommit := fun _ => ([], true)
  maxCommits := 0
  parallelism := 1

/-- A formatting routine that writes nothing and reports no failure. -/
def cfgEmptyOk : Config where
  validID := true
  maybeHead := some 7
  isCommit := fun _ => true
  commits := fun _ => [10, 20]
  printCommit := fun _ => ([], false)
  maxCommits := 0
  parallelism := 1

/-- The producer makes, sends and starts channel 0 and makes channel 1 (nine
statements); the caller receives channel 0 from `bytesChan`; the producer
sends and starts channel 1. -/
def schedFlight : List Action :=
  [Action.main] ++ List.replicate 9 Action.producer
    ++ [Action.main, Action.producer, Action.producer]

/-- The state `schedFlight` leads to under `cfgTwo`. -/
def stateFlight : State :=
  { iterCreated := true, src := [], pulls := 2, displayed := 1, done := false, queue := [1],
    closed := false, slots := [⟨10, SlotPc.formatting⟩, ⟨20, SlotPc.formatting⟩],
    ppc := ProdPc.incr, mpc := MainPc.recv 0, sink := [], sinkErr := false }

/-- After `schedFlight`, the second render goroutine finishes before the first;
both renderings are written, the producer closes `bytesChan`, the caller
returns. -/
def schedRev : List Action :=
  schedFlight ++ [Action.task 1, Action.task 0, Action.main, Action.copy none, Action.main,
    Action.main, Action.copy none] ++ List.replicate 4 Action.producer ++ [Action.main]

/-- The state `schedRev` leads to under `cfgTwo`. -/
def finalRev : State :=
  { iterCreated := true, src := [], pulls := 3, displayed := 2, done := false, queue := [],
    closed := true, slots := [⟨10, SlotPc.received⟩, ⟨20, SlotPc.received⟩],
    ppc := ProdPc.exited, mpc := MainPc.returned none, sink := [[10, 11], [20, 21]],
    sinkErr := false }

/-- The state `schedRev` leads to under `cfgFail`. -/
def finalFail : State :=
  { iterCreated := true, src := [], pulls := 3, displayed := 2, done := false, queue := [],
    closed := true, slots := [⟨10, SlotPc.received⟩, ⟨20, SlotPc.received⟩],
    ppc := ProdPc.exited, mpc := MainPc.returned none, sink := [[10], [20, 21]],
    sinkErr := false }

/-- After `schedFlight`, both render goroutines reach their send; the caller
receives the first rendering and its write fails after one byte; the caller
sets `done` and takes channel 1 out of `bytesChan` in the inner loop; the
producer ends its loop and closes `bytesChan`; the caller leaves both loops
and returns. -/
def schedLeak : List Action :=
  schedFlight ++ [Action.task 0, Action.task 1, Action.main, Action.copy (some 1),
    Action.main, Action.main] ++ List.replicate 4 Action.producer
    ++ [Action.main, Action.main]

/-- The state `schedLeak` leads to under `cfgTwo`. -/
def finalLeak : State :=
  { iterCreated := true, src := [], pulls := 3, displayed := 2, done := true, queue := [],
    closed := true, slots := [⟨10, SlotPc.received⟩, ⟨20, SlotPc.sending [20, 21]⟩],
    ppc := ProdPc.exited, mpc := MainPc.returned none, sink := [[10]], sinkErr := true }

/-- After `schedFlight`, the first rendering is written and the write of the
second fails after one byte. -/
def schedFailSecond : List Action :=
  schedFlight ++ [Action.task 1, Action.task 0, Action.main, Action.copy none, Action.main,
    Action.main, Action.copy (some 1)]

/-- The state `schedFailSecond` leads to under `cfgTwo`. -/
def stateFailSecond : State :=
  { iterCreated := true, src := [], pulls := 2, displayed := 1, done := false, queue := [],
    closed := false, slots := [⟨10, SlotPc.received⟩, ⟨20, SlotPc.received⟩],
    ppc := ProdPc.incr, mpc := MainPc.setDone, sink := [[10, 11], [20]], sinkErr := true }

/-- The producer makes, sends and starts channel 0 and pulls again. -/
def schedPulls : List Action :=
  [Action.main] ++ List.replicate 7 Action.producer

/-- The state `schedPulls` leads to under `cfgLimit`. -/
def statePulls : State :=
  { iterCreated := true, src := [], pulls := 2, displayed := 1, done := false, queue := [0],
    closed := false, slots := [⟨10, SlotPc.formatting⟩], ppc := ProdPc.cond (some 20),
    mpc := MainPc.range, sink := [], sinkErr := false }

/-- After `schedPulls`, the producer ends its loop and closes `bytesChan`; the
rendering is written and the caller returns. -/
def schedLimit : List Action :=
  schedPulls ++ [Action.producer, Action.producer, Action.task 0, Action.main, Action.main,
    Action.copy none, Action.main]

/-- The state `schedLimit` leads to under `cfgLimit`. -/
def finalLimit : State :=
  { iterCreated := true, src := [], pulls := 2, displayed := 1, done := false, queue := [],
    closed := true, slots := [⟨10, SlotPc.received⟩], ppc := ProdPc.exited,
    mpc := MainPc.returned none, sink := [[10, 11]], sinkErr := false }

/-- The state after the first step under `cfgNoHead`. -/
def finalNoHead : State :=
  { init with
    mpc := MainPc.returned (some ⟨"\x7b\x7b<nil> [] []\x7d\x7d is not a Commit object"⟩) }

/-- A dataset that refers to a value that is not a commit. -/
def cfgNotCommit : Config where
  validID := true
  maybeHead := some 7
  isCommit := fun _ => false
  commits := fun _ => [10, 20]
  printCommit := fun n => ([n, n + 1], false)
  maxCommits := 0
  parallelism := 1

/-- The state after the first step under `cfgNotCommit`. -/
def statePanicked : State := { init with mpc := MainPc.panicked }

/-- A history of three commits; no limit; `parallelism = 1`. -/
def cfgThree : Config where
  validID := true
  maybeHead := some 7
  isCommit := fun _ => true
  commits := fun _ => [10, 20, 30]
  printCommit := fun n => ([n, n + 1], false)
  maxCommits := 0
  parallelism := 1

/-- After `schedFlight`, the producer makes channel 2, which it cannot send
while channel 1 is in `bytesChan`; the caller is waiting on channel 0. -/
def schedThree : List Action :=
  schedFlight ++ List.replicate 4 Action.producer

/-- The state `schedThree` leads to under `cfgThree`. -/
def stateThree : State :=
  { iterCreated := true, src := [], pulls := 3, displayed := 2, done := false, queue := [1],
    closed := false,
    slots := [⟨10, SlotPc.formatting⟩, ⟨20, SlotPc.formatting⟩, ⟨30, SlotPc.created⟩],
    ppc := ProdPc.send 2 30, mpc := MainPc.recv 0, sink := [], sinkErr := false }

/-- A state in which the goroutine of channel 0 is running `printCommit`. -/
def stateFormatting : State := { init with slots := [⟨10, SlotPc.formatting⟩] }

/-! ## Lemmas -/

theorem sum_set_add (l : List Nat) (i x y : Nat) (h : l[i]? = some y) :
    (l.set i x).sum + y = l.sum + x := by
  induction l generalizing i with
  | nil => simp at h
  | cons a l ih =>
    cases i with
    | zero =>
      simp at h
      subst h
      simp [List.set]
      omega
    | succ i =>
      simp at h
      have := ih i h
      simp [List.set]
      omega

theorem sum_set_le (l : List Nat) (i x : Nat) : (l.set i x).sum ≤ l.sum + x := by
  cases h : l[i]? with
  | none =>
    have : l.length ≤ i := by simpa using h
    rw [List.set_eq_of_length_le this]
    omega
  | some t =>
    have := sum_set_add l i x t h
    omega

/-- Every step makes the variant smaller. -/
theorem measure_step (c : Config) (s s' : State) (a : Action) (h : step c s a = some s') :
    measure c s' < measure c s := by
  rcases s with ⟨ic, src, pulls, disp, done, queue, closed, slots, ppc, mpc, sink, sinkErr⟩
  cases a with
  | main =>
    cases mpc with
    | start =>
      simp only [step, stepMain] at h
      split at h
      · cases h; simp [measure, MainPc.rank]
      · cases h; simp [measure, MainPc.rank]
      · split at h
        · cases h
          simp [measure, MainPc.rank, ProdPc.rank, nodesOf, *]
          omega
        · cases h; simp [measure, MainPc.rank]
    | panicked => simp [step, stepMain] at h
    | range =>
      cases queue with
      | nil =>
        simp only [step, stepMain] at h
        split at h <;> cases h
        simp [measure, MainPc.rank]
      | cons q qs =>
        simp only [step, stepMain] at h
        cases h; simp [measure, MainPc.rank]; omega
    | recv ch =>
      simp only [step, stepMain] at h
      split at h
      · rename_i n b hs
        cases h
        have := sum_set_add (slots.map (fun t => t.pc.rank)) ch 0 1 (by simp at hs; simp [hs, SlotPc.rank])
        simp [measure, MainPc.rank, SlotPc.rank] at this ⊢
        omega
      · cases h
    | copy b => simp [step, stepMain] at h
    | setDone =>
      simp only [step, stepMain] at h
      cases h; simp [measure, MainPc.rank]
    | drain =>
      cases queue with
      | nil =>
        simp only [step, stepMain] at h
        split at h <;> cases h
        simp [measure, MainPc.rank]
      | cons q qs =>
        simp only [step, stepMain] at h
        cases h; simp [measure, MainPc.rank]
    | returned r => simp [step, stepMain] at h
  | copy r =>
    cases mpc <;> simp only [step, stepCopy] at h <;> try cases h
    cases r <;> cases h <;> simp [measure, MainPc.rank]
  | producer =>
    cases ppc with
    | idle => simp [step, stepProducer] at h
    | next =>
      cases src <;> simp only [step, stepProducer] at h <;> cases h <;>
        simp [measure, ProdPc.rank]
      omega
    | cond ln =>
      cases ln with
      | none => simp only [step, stepProducer] at h; cases h; simp [measure, ProdPc.rank]
      | some n =>
        simp only [step, stepProducer] at h
        split at h <;> cases h <;> simp [measure, ProdPc.rank]
    | make n =>
      simp only [step, stepProducer] at h
      cases h; simp [measure, ProdPc.rank, SlotPc.rank]; omega
    | send ch n =>
      simp only [step, stepProducer] at h
      split at h <;> cases h
      simp [measure, ProdPc.rank]; omega
    | spawn ch n =>
      simp only [step, stepProducer] at h
      cases h
      have := sum_set_le (slots.map (fun t => t.pc.rank)) ch 2
      simp [measure, ProdPc.rank, SlotPc.rank] at this ⊢
      omega
    | incr => simp only [step, stepProducer] at h; cases h; simp [measure, ProdPc.rank]
    | close => simp only [step, stepProducer] at h; cases h; simp [measure, ProdPc.rank]
    | exited => simp [step, stepProducer] at h
  | task i =>
    simp only [step, stepTask] at h
    split at h
    · rename_i n hs
      cases h
      have := sum_set_add (slots.map (fun t => t.pc.rank)) i 1 2 (by simp at hs; simp [hs, SlotPc.rank])
      simp [measure, SlotPc.rank] at this ⊢
      omega
    · cases h

theorem MainInv_frame (c : Config) (s s' : State) (h : MainInv c s) (hm : s'.mpc = s.mpc)
    (he : s'.sinkErr = s.sinkErr) (hs : s'.sink = s.sink) (hd : s'.done = s.done)
    (hp : popped s' = popped s)
    (hc : s.closed = true → s'.closed = true ∧ s'.queue = s.queue) : MainInv c s' := by
  unfold MainInv at h ⊢
  rw [hm]
  cases hmpc : s.mpc <;> simp only [hmpc, he, hs, hd, hp] at h ⊢
  · obtain ⟨a, b⟩ := h
    refine ⟨a, fun x => ?_⟩
    obtain ⟨b1, b2, b3⟩ := b x
    obtain ⟨c1, c2⟩ := hc b1
    exact ⟨c1, c2 ▸ b2, b3⟩
  · exact h
  · exact h
  · exact h
  · exact h
  · obtain ⟨a, b1, b2, b3⟩ := h
    obtain ⟨c1, c2⟩ := hc b1
    exact ⟨a, c1, c2 ▸ b2, b3⟩

theorem ProdInv_frame (c : Config) (s s' : State) (h : ProdInv c s) (hp : s'.ppc = s.ppc)
    (hpl : s'.pulls = s.pulls) (hd : s'.displayed = s.displayed)
    (hl : s'.slots.length = s.slots.length) (hc : s'.closed = s.closed)
    (he : s'.sinkErr = false → s.sinkErr = false)
    (hs : ∀ n, s.slots[s.displayed]? = some ⟨n, SlotPc.created⟩ →
      s'.slots[s.displayed]? = some ⟨n, SlotPc.created⟩) : ProdInv c s' := by
  unfold ProdInv at h ⊢
  rw [hp]
  cases hppc : s.ppc <;> simp only [hppc, hpl, hd, hl, hc] at h ⊢
  · exact h
  · exact h
  · exact h
  · obtain ⟨a1, a2, a3, a4, a5, a6, a7⟩ := h
    exact ⟨a1, a2, a3, a4, a5, a6, hs _ a7⟩
  · obtain ⟨a1, a2, a3, a4, a5, a6, a7⟩ := h
    exact ⟨a1, a2, a3, a4, a5, a6, hs _ a7⟩
  · exact h
  · obtain ⟨a1, a2, a3, a4⟩ := h
    exact ⟨a1, a2, a3, fun x => a4 (he x)⟩
  · obtain ⟨a1, a2, a3, a4⟩ := h
    exact ⟨a1, a2, a3, fun x => a4 (he x)⟩

theorem SlotInv_frame (c : Config) (s s' : State) (i : Nat) (t : Slot) (h : SlotInv c s i t)
    (hr : receivedCount s' = receivedCount s) (hd : s'.displayed = s.displayed)
    (hp : s'.ppc = s.ppc) : SlotInv c s' i t := by
  unfold SlotInv at h ⊢
  rw [hr, hd, hp]
  exact h

theorem range'_cons_eq (ch : Nat) (rest : List Nat) (p : Nat)
    (h : ch :: rest = List.range' p (rest.length + 1)) :
    ch = p ∧ rest = List.range' (p + 1) rest.length := by
  rw [List.range'_succ] at h
  simpa using h

/-- A step of a render goroutine keeps the invariant of the pipeline. -/
theorem Pipe_task (c : Config) (s s' : State) (i : Nat) (hp : Pipe c s)
    (h : stepTask c s i = some s') : Pipe c s' := by
  rcases s with ⟨ic, src, pulls, disp, done, queue, closed, slots, ppc, mpc, sink, sinkErr⟩
  obtain ⟨hsrc, hL, hN, hprod, hqcap, hqlen, hq, hdone, hmain, hsink, hslots, hrcv, hfail⟩ := hp
  simp only at hsrc hL hN hqcap hqlen hq hdone hsink hslots hrcv hfail
  simp only [stepTask] at h
  split at h
  · rename_i n hs
    cases h
    simp only [List.get?_eq_getElem?] at hs
    have hold := hslots i _ hs
    have hpp : popped (⟨ic, src, pulls, disp, done, queue, closed, slots, ppc, mpc, sink, sinkErr⟩ : State)
        = popped (⟨ic, src, pulls, disp, done, queue, closed, slots.set i ⟨n, SlotPc.sending (c.printCommit n).1⟩, ppc, mpc, sink, sinkErr⟩ : State) := by
      cases ppc <;> simp [popped, pushed]
    refine ⟨hsrc, hL, hN, ?_, hqcap, ?_, ?_, hdone, ?_, hsink, ?_, ?_, ?_⟩
    · refine ProdInv_frame c _ _ hprod rfl rfl rfl (by simp) rfl (fun x => x) ?_
      intro m hm
      simp only at hm ⊢
      have hne : i ≠ disp := by
        intro he
        subst he
        rw [hs] at hm
        simp at hm
      rw [List.getElem?_set_ne hne]
      exact hm
    · have : pushed (⟨ic, src, pulls, disp, done, queue, closed, slots.set i ⟨n, SlotPc.sending (c.printCommit n).1⟩, ppc, mpc, sink, sinkErr⟩ : State)
        = pushed (⟨ic, src, pulls, disp, done, queue, closed, slots, ppc, mpc, sink, sinkErr⟩ : State) := by
        cases ppc <;> simp [pushed]
      rw [this]; exact hqlen
    · rw [← hpp]; exact hq
    · exact MainInv_frame c _ _ hmain rfl rfl rfl rfl hpp.symm (by simp)
    · intro j t hjt
      rw [List.getElem?_set] at hjt
      split at hjt
      · rename_i hi
        subst hi
        have hlt : i < slots.length := (List.getElem?_eq_some_iff.mp hs).1
        simp [hlt] at hjt
        subst hjt
        obtain ⟨a1, a2, a3, a4⟩ := hold
        refine ⟨a1, ?_, ?_, ?_⟩
        · simp [receivedCount] at a2 ⊢
          exact a2
        · intro b hb
          simp at hb
          simp [rendering, hb]
        · simp
      · exact SlotInv_frame c _ _ j t (hslots j t hjt) rfl rfl rfl
    · rw [← hpp]; exact hrcv
    · simpa using hfail
  · cases h

theorem lt_maxCommitsOf (c : Config) (d : Nat) : (d : Int) < maxCommitsOf c ↔ d < limitOf c := by
  unfold limitOf maxCommitsOf maxInt32
  split <;> omega

/-- A step of the producer keeps the invariant of the pipeline. -/
theorem Pipe_producer (c : Config) (s s' : State) (hp : Pipe c s)
    (h : stepProducer c s = some s') : Pipe c s' := by
  rcases s with ⟨ic, src, pulls, disp, done, queue, closed, slots, ppc, mpc, sink, sinkErr⟩
  obtain ⟨hsrc, hL, hN, hprod, hqcap, hqlen, hq, hdone, hmain, hsink, hslots, hrcv, hfail⟩ := hp
  simp only at hsrc hL hN hqcap hqlen hq hdone hsink hslots hrcv hfail
  cases ppc with
  | idle => simp [stepProducer] at h
  | next =>
    simp only [ProdInv] at hprod
    obtain ⟨h1, h2, h3⟩ := hprod
    cases src with
    | nil =>
      simp only [stepProducer] at h
      cases h
      have hlen : (nodesOf c).length ≤ disp := by
        have := congrArg List.length hsrc
        simp at this; omega
      refine ⟨?_, hL, hN, ?_, hqcap, hqlen, hq, hdone, ?_, hsink, ?_, hrcv, hfail⟩
      · simp; omega
      · simp [ProdInv, h1, h2, h3]
        omega
      · cases mpc <;> simp [MainInv, popped, pushed] at hmain ⊢ <;> exact hmain
      · intro i t hit
        have := hslots i t hit
        simp only [SlotInv, receivedCount] at this ⊢
        simpa using this
    | cons n rest =>
      simp only [stepProducer] at h
      cases h
      have hd : (nodesOf c)[disp]? = some n := by
        have := List.getElem?_drop (nodesOf c) pulls 0
        rw [← hsrc] at this
        simp at this
        rw [← h1]; exact this.symm
      have hr : rest = (nodesOf c).drop (pulls + 1) := by
        have := congrArg List.tail hsrc
        simpa using this
      refine ⟨hr, hL, hN, ?_, hqcap, hqlen, hq, hdone, ?_, hsink, ?_, hrcv, hfail⟩
      · simp [ProdInv, h1, h2, h3, hd]
      · cases mpc <;> simp [MainInv, popped, pushed] at hmain ⊢ <;> exact hmain
      · intro i t hit
        have := hslots i t hit
        simp only [SlotInv, receivedCount] at this ⊢
        simpa using this
  | cond ln =>
    simp only [ProdInv] at hprod
    obtain ⟨h1, h2, h3, h4⟩ := hprod
    have hnc : ∀ (i : Nat) (t : Slot), slots[i]? = some t → t.pc ≠ SlotPc.created := by
      intro i t hit hc
      have := (hslots i t hit).2.2.2 hc
      simp at this
    cases ln with
    | none =>
      simp only [stepProducer] at h
      cases h
      have hlen : (nodesOf c).length ≤ disp := by
        simpa using h4.symm
      refine ⟨hsrc, hL, hN, ?_, hqcap, hqlen, hq, hdone, ?_, hsink, ?_, hrcv, hfail⟩
      · simp [ProdInv, h1, h2, h3]
        omega
      · cases mpc <;> simp [MainInv, popped, pushed] at hmain ⊢ <;> exact hmain
      · intro i t hit
        obtain ⟨a1, a2, a3, _⟩ := hslots i t hit
        exact ⟨a1, a2, a3, fun hc => absurd hc (hnc i t hit)⟩
    | some n =>
      simp only [stepProducer] at h
      split at h
      · rename_i hc
        cases h
        rw [lt_maxCommitsOf] at hc
        refine ⟨hsrc, hL, hN, ?_, hqcap, hqlen, hq, hdone, ?_, hsink, ?_, hrcv, ?_⟩
        · simp [ProdInv, h1, h2, h3, h4.symm, hc.2]
        · cases mpc <;> simp [MainInv, popped, pushed] at hmain ⊢ <;> exact hmain
        · intro i t hit
          obtain ⟨a1, a2, a3, _⟩ := hslots i t hit
          exact ⟨a1, a2, a3, fun hc => absurd hc (hnc i t hit)⟩
        · intro _ hd
          simp [hc.1] at hd
      · rename_i hc
        cases h
        rw [lt_maxCommitsOf] at hc
        refine ⟨hsrc, hL, hN, ?_, hqcap, hqlen, hq, hdone, ?_, hsink, ?_, hrcv, hfail⟩
        · simp [ProdInv, h1, h2, h3]
          intro hse
          have : done = false := by
            cases done
            · rfl
            · simp at hdone; simp [hdone] at hse
          simp [this] at hc
          omega
        · cases mpc <;> simp [MainInv, popped, pushed] at hmain ⊢ <;> exact hmain
        · intro i t hit
          obtain ⟨a1, a2, a3, _⟩ := hslots i t hit
          exact ⟨a1, a2, a3, fun hc => absurd hc (hnc i t hit)⟩
  | make n =>
    simp only [ProdInv] at hprod
    obtain ⟨h1, h2, h3, h4, h5⟩ := hprod
    simp only [stepProducer] at h
    cases h
    have hpp : popped (⟨ic, src, pulls, disp, done, queue, closed, slots, ProdPc.make n, mpc, sink, sinkErr⟩ : State)
        = popped (⟨ic, src, pulls, disp, done, queue, closed, slots ++ [⟨n, SlotPc.created⟩], ProdPc.send slots.length n, mpc, sink, sinkErr⟩ : State) := by
      simp [popped, pushed]
    refine ⟨hsrc, hL, hN, ?_, hqcap, ?_, ?_, hdone, ?_, hsink, ?_, ?_, ?_⟩
    · simp [ProdInv, h1, h2, h3, h4, h5]
    · simpa [pushed] using hqlen
    · rw [← hpp]; exact hq
    · exact MainInv_frame c _ _ hmain rfl rfl rfl rfl hpp.symm (by simp)
    · intro i t hit
      rw [List.getElem?_append] at hit
      split at hit
      · obtain ⟨a1, a2, a3, a4⟩ := hslots i t hit
        refine ⟨a1, a2, a3, fun hc => ?_⟩
        have := a4 hc
        simp at this
      · rename_i hi
        have hi2 : i = slots.length := by
          cases hlt : i - slots.length with
          | zero => omega
          | succ k => simp [hlt] at hit
        subst hi2
        simp at hit
        subst hit
        refine ⟨?_, ?_, ?_, ?_⟩
        · simpa [h2] using h4
        · simp [pushed, popped, receivedCount] at hrcv ⊢
          omega
        · simp
        · simp [h2]
    · rw [← hpp]; exact hrcv
    · intro a b
      have := hfail a b
      simp at this ⊢
      omega
  | send ch n =>
    simp only [ProdInv] at hprod
    obtain ⟨h1, h2, h3, h4, h5, h6, h7⟩ := hprod
    simp only [stepProducer] at h
    split at h
    · rename_i hlt
      cases h
      have hqd : queue.length ≤ disp := by simpa [pushed, h2] using hqlen
      have hpp : popped (⟨ic, src, pulls, disp, done, queue, closed, slots, ProdPc.send ch n, mpc, sink, sinkErr⟩ : State)
          = popped (⟨ic, src, pulls, disp, done, queue ++ [ch], closed, slots, ProdPc.spawn ch n, mpc, sink, sinkErr⟩ : State) := by
        simp [popped, pushed, h2]
      have hpv : popped (⟨ic, src, pulls, disp, done, queue, closed, slots, ProdPc.send ch n, mpc, sink, sinkErr⟩ : State) = disp - queue.length := by
        simp [popped, pushed, h2]
      refine ⟨hsrc, hL, hN, ?_, ?_, ?_, ?_, hdone, ?_, hsink, ?_, ?_, ?_⟩
      · simp [ProdInv, h1, h2, h3, h4, h5, h6, h7]
      · simp; omega
      · simp [pushed, h2]; omega
      · rw [← hpp]
        simp only [List.length_append, List.length_singleton, List.range'_1_concat]
        rw [← hq, hpv, h6]
        congr 2
        omega
      · exact MainInv_frame c _ _ hmain rfl rfl rfl rfl hpp.symm (by simp [h3])
      · intro i t hit
        obtain ⟨a1, a2, a3, a4⟩ := hslots i t hit
        refine ⟨a1, a2, a3, fun hc => ?_⟩
        have := a4 hc
        simp at this ⊢
        simp [this]
      · rw [← hpp]; exact hrcv
      · exact hfail
    · cases h
  | spawn ch n =>
    simp only [ProdInv] at hprod
    obtain ⟨h1, h2, h3, h4, h5, h6, h7⟩ := hprod
    simp only [stepProducer] at h
    cases h
    subst h6
    have hpp : popped (⟨ic, src, pulls, ch, done, queue, closed, slots, ProdPc.spawn ch n, mpc, sink, sinkErr⟩ : State)
        = popped (⟨ic, src, pulls, ch, done, queue, closed, slots.set ch ⟨n, SlotPc.formatting⟩, ProdPc.incr, mpc, sink, sinkErr⟩ : State) := by
      simp [popped, pushed]
    have hold := hslots ch _ h7
    refine ⟨hsrc, hL, hN, ?_, hqcap, ?_, ?_, hdone, ?_, hsink, ?_, ?_, ?_⟩
    · simp [ProdInv, h1, h2, h3, h5]
      have := (List.getElem?_eq_some_iff.mp h4).1
      exact this
    · simpa [pushed] using hqlen
    · rw [← hpp]; exact hq
    · exact MainInv_frame c _ _ hmain rfl rfl rfl rfl hpp.symm (by simp)
    · intro i t hit
      rw [List.getElem?_set] at hit
      split at hit
      · rename_i hi
        subst hi
        have hlt : ch < slots.length := by omega
        simp [hlt] at hit
        subst hit
        refine ⟨h4, ?_, ?_, ?_⟩
        · have := hold.2.1
          simp [receivedCount] at this ⊢
          exact this
        · simp
        · simp
      · rename_i hi
        obtain ⟨a1, a2, a3, a4⟩ := hslots i t hit
        refine ⟨a1, a2, a3, fun hc => ?_⟩
        have := a4 hc
        simp at this
        omega
    · rw [← hpp]; exact hrcv
    · simpa using hfail
  | incr =>
    simp only [ProdInv] at hprod
    obtain ⟨h1, h2, h3, h4, h5⟩ := hprod
    simp only [stepProducer] at h
    cases h
    have hnc : ∀ (i : Nat) (t : Slot), slots[i]? = some t → t.pc ≠ SlotPc.created := by
      intro i t hit hc
      have := (hslots i t hit).2.2.2 hc
      simp at this
    refine ⟨hsrc, ?_, ?_, ?_, hqcap, hqlen, hq, hdone, ?_, hsink, ?_, hrcv, hfail⟩
    · simp; omega
    · simp; omega
    · simp [ProdInv, h1, h2, h3]
    · cases mpc <;> simp [MainInv, popped, pushed] at hmain ⊢ <;> exact hmain
    · intro i t hit
      obtain ⟨a1, a2, a3, _⟩ := hslots i t hit
      exact ⟨a1, a2, a3, fun hc => absurd hc (hnc i t hit)⟩
  | close =>
    simp only [ProdInv] at hprod
    obtain ⟨h1, h2, h3, h4⟩ := hprod
    simp only [stepProducer] at h
    cases h
    have hnc : ∀ (i : Nat) (t : Slot), slots[i]? = some t → t.pc ≠ SlotPc.created := by
      intro i t hit hc
      have := (hslots i t hit).2.2.2 hc
      simp at this
    refine ⟨hsrc, hL, hN, ?_, hqcap, hqlen, hq, hdone, ?_, hsink, ?_, hrcv, hfail⟩
    · simp [ProdInv, h1, h2]
      exact h4
    · exact MainInv_frame c _ _ hmain rfl rfl rfl rfl rfl (by simp [h3])
    · intro i t hit
      obtain ⟨a1, a2, a3, _⟩ := hslots i t hit
      exact ⟨a1, a2, a3, fun hc => absurd hc (hnc i t hit)⟩
  | exited => simp [stepProducer] at h

/-- A step of the calling goroutine keeps the invariant of the pipeline. -/
theorem Pipe_main (c : Config) (s s' : State) (hp : Pipe c s) (hst : s.mpc ≠ MainPc.start)
    (h : stepMain c s = some s') : Pipe c s' := by
  rcases s with ⟨ic, src, pulls, disp, done, queue, closed, slots, ppc, mpc, sink, sinkErr⟩
  obtain ⟨hsrc, hL, hN, hprod, hqcap, hqlen, hq, hdone, hmain, hsink, hslots, hrcv, hfail⟩ := hp
  simp only at hsrc hL hN hqcap hqlen hq hdone hsink hslots hrcv hfail hst
  cases mpc with
  | start => exact absurd rfl hst
  | panicked => simp [stepMain] at h
  | range =>
    simp only [MainInv] at hmain
    obtain ⟨m1, m2⟩ := hmain
    cases queue with
    | nil =>
      simp only [stepMain] at h
      split at h
      · rename_i hcl
        cases h
        refine ⟨hsrc, hL, hN, ?_, hqcap, hqlen, hq, hdone, ?_, hsink, ?_, hrcv, hfail⟩
        · exact ProdInv_frame c _ _ hprod rfl rfl rfl rfl rfl (fun x => x) (fun _ x => x)
        · simp only [MainInv]
          refine ⟨trivial, hcl, trivial, m1, fun x => (m2 x).2.2⟩
        · intro i t hit
          exact SlotInv_frame c _ _ i t (hslots i t hit) rfl rfl rfl
      · cases h
    | cons ch rest =>
      simp only [stepMain] at h
      cases h
      have hse : sinkErr = false := by
        cases sinkErr
        · rfl
        · have := (m2 rfl).2.1
          simp at this
      have hP := m1 hse
      obtain ⟨q1, q2⟩ := range'_cons_eq ch rest _ hq
      have hlen : rest.length + 1 ≤ pushed (⟨ic, src, pulls, disp, done, ch :: rest, closed, slots, ppc, MainPc.range, sink, sinkErr⟩ : State) := hqlen
      have hpu : pushed (⟨ic, src, pulls, disp, done, rest, closed, slots, ppc, MainPc.recv ch, sink, sinkErr⟩ : State)
          = pushed (⟨ic, src, pulls, disp, done, ch :: rest, closed, slots, ppc, MainPc.range, sink, sinkErr⟩ : State) := by
        cases ppc <;> rfl
      have hpp : popped (⟨ic, src, pulls, disp, done, rest, closed, slots, ppc, MainPc.recv ch, sink, sinkErr⟩ : State)
          = popped (⟨ic, src, pulls, disp, done, ch :: rest, closed, slots, ppc, MainPc.range, sink, sinkErr⟩ : State) + 1 := by
        simp only [popped, hpu, List.length_cons]
        omega
      refine ⟨hsrc, hL, hN, ?_, ?_, ?_, ?_, hdone, ?_, hsink, ?_, ?_, hfail⟩
      · exact ProdInv_frame c _ _ hprod rfl rfl rfl rfl rfl (fun x => x) (fun _ x => x)
      · simp at hqcap ⊢; omega
      · rw [hpu]; simp; omega
      · rw [hpp]; exact q2
      · simp only [MainInv, hpp, hP]
        exact ⟨hse, by rw [q1, hP], trivial⟩
      · intro i t hit
        exact SlotInv_frame c _ _ i t (hslots i t hit) rfl rfl rfl
      · rw [hpp]
        simp only [receivedCount] at hrcv ⊢
        omega
  | recv ch =>
    simp only [MainInv] at hmain
    obtain ⟨m1, m2, m3⟩ := hmain
    simp only [stepMain] at h
    split at h
    · rename_i n b hs
      cases h
      simp only [List.get?_eq_getElem?] at hs
      obtain ⟨o1, o2, o3, o4⟩ := hslots ch _ hs
      have hpp : popped (⟨ic, src, pulls, disp, done, queue, closed, slots.set ch ⟨n, SlotPc.received⟩, ppc, MainPc.copy b, sink, sinkErr⟩ : State)
          = popped (⟨ic, src, pulls, disp, done, queue, closed, slots, ppc, MainPc.recv ch, sink, sinkErr⟩ : State) := by
        cases ppc <;> simp [popped, pushed]
      refine ⟨hsrc, hL, hN, ?_, hqcap, ?_, ?_, hdone, ?_, hsink, ?_, ?_, ?_⟩
      · refine ProdInv_frame c _ _ hprod rfl rfl rfl (by simp) rfl (fun x => x) ?_
        intro m hm
        simp only at hm ⊢
        have hne : ch ≠ disp := by
          intro he
          subst he
          rw [hs] at hm
          simp at hm
        rw [List.getElem?_set_ne hne]
        exact hm
      · have : pushed (⟨ic, src, pulls, disp, done, queue, closed, slots.set ch ⟨n, SlotPc.received⟩, ppc, MainPc.copy b, sink, sinkErr⟩ : State)
          = pushed (⟨ic, src, pulls, disp, done, queue, closed, slots, ppc, MainPc.recv ch, sink, sinkErr⟩ : State) := by
          cases ppc <;> simp [pushed]
        rw [this]; exact hqlen
      · rw [hpp]; exact hq
      · simp only [MainInv, hpp]
        refine ⟨m1, m3, n, ?_, ?_⟩
        · rw [← m2]; exact o1
        · exact o3 b rfl
      · intro j t hjt
        rw [List.getElem?_set] at hjt
        split at hjt
        · rename_i hi
          subst hi
          have hlt : ch < slots.length := (List.getElem?_eq_some_iff.mp hs).1
          simp [hlt] at hjt
          subst hjt
          refine ⟨o1, ?_, ?_, ?_⟩
          · simp [receivedCount, m2]
          · simp
          · simp
        · rename_i hi
          obtain ⟨a1, a2, a3, a4⟩ := hslots j t hjt
          refine ⟨a1, ?_, a3, a4⟩
          simp only [receivedCount] at a2 ⊢
          rw [a2]
          omega
      · rw [hpp, m3]
        simp [receivedCount]
      · simpa using hfail
    · cases h
  | copy b => simp [stepMain] at h
  | setDone =>
    simp only [MainInv] at hmain
    obtain ⟨m1, m2, m3⟩ := hmain
    simp only [stepMain] at h
    cases h
    refine ⟨hsrc, hL, hN, ?_, hqcap, hqlen, hq, fun _ => m1, ?_, hsink, ?_, hrcv, ?_⟩
    · exact ProdInv_frame c _ _ hprod rfl rfl rfl rfl rfl (fun x => x) (fun _ x => x)
    · simp only [MainInv]
      exact ⟨m1, trivial⟩
    · intro i t hit
      exact SlotInv_frame c _ _ i t (hslots i t hit) rfl rfl rfl
    · intro _ _
      simp only [popped] at m3
      cases ppc <;> simp only [pushed, ProdInv] at m3 hqlen hprod ⊢ <;> omega
  | drain =>
    simp only [MainInv] at hmain
    obtain ⟨m1, m2⟩ := hmain
    cases queue with
    | nil =>
      simp only [stepMain] at h
      split at h
      · rename_i hcl
        cases h
        refine ⟨hsrc, hL, hN, ?_, hqcap, hqlen, hq, hdone, ?_, hsink, ?_, hrcv, hfail⟩
        · exact ProdInv_frame c _ _ hprod rfl rfl rfl rfl rfl (fun x => x) (fun _ x => x)
        · simp only [MainInv]
          refine ⟨fun x => ?_, fun _ => ⟨hcl, trivial, m2⟩⟩
          rw [m1] at x
          cases x
        · intro i t hit
          exact SlotInv_frame c _ _ i t (hslots i t hit) rfl rfl rfl
      · cases h
    | cons ch rest =>
      simp only [stepMain] at h
      cases h
      obtain ⟨q1, q2⟩ := range'_cons_eq ch rest _ hq
      have hlen : rest.length + 1 ≤ pushed (⟨ic, src, pulls, disp, done, ch :: rest, closed, slots, ppc, MainPc.drain, sink, sinkErr⟩ : State) := hqlen
      have hpu : pushed (⟨ic, src, pulls, disp, done, rest, closed, slots, ppc, MainPc.drain, sink, sinkErr⟩ : State)
          = pushed (⟨ic, src, pulls, disp, done, ch :: rest, closed, slots, ppc, MainPc.drain, sink, sinkErr⟩ : State) := by
        cases ppc <;> rfl
      have hpp : popped (⟨ic, src, pulls, disp, done, rest, closed, slots, ppc, MainPc.drain, sink, sinkErr⟩ : State)
          = popped (⟨ic, src, pulls, disp, done, ch :: rest, closed, slots, ppc, MainPc.drain, sink, sinkErr⟩ : State) + 1 := by
        simp only [popped, hpu, List.length_cons]
        omega
      refine ⟨hsrc, hL, hN, ?_, ?_, ?_, ?_, hdone, ?_, hsink, ?_, ?_, hfail⟩
      · exact ProdInv_frame c _ _ hprod rfl rfl rfl rfl rfl (fun x => x) (fun _ x => x)
      · simp at hqcap ⊢; omega
      · rw [hpu]; simp; omega
      · rw [hpp]; exact q2
      · simp only [MainInv]
        exact ⟨m1, m2⟩
      · intro i t hit
        exact SlotInv_frame c _ _ i t (hslots i t hit) rfl rfl rfl
      · rw [hpp]
        simp only [receivedCount] at hrcv ⊢
        omega
  | returned r => simp [stepMain] at h

/-- An `io.Copy` step keeps the invariant of the pipeline. -/
theorem Pipe_copy (c : Config) (s s' : State) (r : Option Nat) (hp : Pipe c s)
    (h : stepCopy s r = some s') : Pipe c s' := by
  rcases s with ⟨ic, src, pulls, disp, done, queue, closed, slots, ppc, mpc, sink, sinkErr⟩
  obtain ⟨hsrc, hL, hN, hprod, hqcap, hqlen, hq, hdone, hmain, hsink, hslots, hrcv, hfail⟩ := hp
  simp only at hsrc hL hN hqcap hqlen hq hdone hsink hslots hrcv hfail
  cases mpc <;> simp only [stepCopy] at h <;> try cases h
  rename_i b
  simp only [MainInv] at hmain
  obtain ⟨m1, m2, n, m3, m4⟩ := hmain
  subst m1
  have hsk : sink = ((nodesOf c).take sink.length).map (rendering c) := by
    simpa [SinkInv] using hsink
  have hdn : done = false := by
    cases done
    · rfl
    · have := hdone rfl
      cases this
  cases r with
  | none =>
    cases h
    have hpp : popped (⟨ic, src, pulls, disp, done, queue, closed, slots, ppc, MainPc.range, sink ++ [b], false⟩ : State)
        = popped (⟨ic, src, pulls, disp, done, queue, closed, slots, ppc, MainPc.copy b, sink, false⟩ : State) := by
      cases ppc <;> rfl
    refine ⟨hsrc, hL, hN, ?_, hqcap, ?_, ?_, hdone, ?_, ?_, ?_, ?_, ?_⟩
    · exact ProdInv_frame c _ _ hprod rfl rfl rfl rfl rfl (fun x => x) (fun _ x => x)
    · have : pushed (⟨ic, src, pulls, disp, done, queue, closed, slots, ppc, MainPc.range, sink ++ [b], false⟩ : State)
          = pushed (⟨ic, src, pulls, disp, done, queue, closed, slots, ppc, MainPc.copy b, sink, false⟩ : State) := by
        cases ppc <;> rfl
      rw [this]; exact hqlen
    · rw [hpp]; exact hq
    · simp only [MainInv, hpp, m2]
      simp
    · simp only [SinkInv]
      simp only [Bool.false_eq_true, if_false, List.length_append, List.length_singleton]
      rw [List.take_succ, m3]
      simp only [Option.toList, List.map_append, List.map_cons, List.map_nil]
      rw [← hsk, m4]
    · intro i t hit
      refine SlotInv_frame c _ _ i t (hslots i t hit) ?_ rfl rfl
      simp [receivedCount]
    · rw [hpp]
      simp only [receivedCount] at hrcv ⊢
      simpa using hrcv
    · intro x; cases x
  | some k =>
    cases h
    have hpp : popped (⟨ic, src, pulls, disp, done, queue, closed, slots, ppc, MainPc.setDone, sink ++ [b.take k], true⟩ : State)
        = popped (⟨ic, src, pulls, disp, done, queue, closed, slots, ppc, MainPc.copy b, sink, false⟩ : State) := by
      cases ppc <;> rfl
    refine ⟨hsrc, hL, hN, ?_, hqcap, ?_, ?_, fun _ => rfl, ?_, ?_, ?_, ?_, ?_⟩
    · refine ProdInv_frame c _ _ hprod rfl rfl rfl rfl rfl (fun x => ?_) (fun _ x => x)
      cases x
    · have : pushed (⟨ic, src, pulls, disp, done, queue, closed, slots, ppc, MainPc.setDone, sink ++ [b.take k], true⟩ : State)
          = pushed (⟨ic, src, pulls, disp, done, queue, closed, slots, ppc, MainPc.copy b, sink, false⟩ : State) := by
        cases ppc <;> rfl
      rw [this]; exact hqlen
    · rw [hpp]; exact hq
    · simp only [MainInv, hpp, m2]
      simp [hdn]
    · simp only [SinkInv]
      simp only [if_true, List.length_append, List.length_singleton, Nat.add_sub_cancel]
      refine ⟨k, n, m3, by omega, ?_⟩
      rw [← hsk, m4]
    · intro i t hit
      refine SlotInv_frame c _ _ i t (hslots i t hit) ?_ rfl rfl
      simp [receivedCount]
    · rw [hpp]
      simp only [receivedCount] at hrcv ⊢
      simpa using hrcv
    · intro _ x
      simp only at x
      rw [hdn] at x
      cases x

theorem getDataset_commit (c : Config) (v : Value) (h : getDataset c = some (some v)) :
    c.isCommit v = true := by
  unfold getDataset at h
  split at h
  · cases h
  · split at h
    · cases h
    · split at h
      · rename_i hv
        cases h
        exact hv
      · cases h

theorem getDataset_absent (c : Config) (h1 : c.validID = true) (h2 : c.maybeHead = none) :
    getDataset c = some none := by
  simp [getDataset, h1, h2]

theorem getDataset_of_commit (c : Config) (v : Value) (h1 : c.validID = true)
    (h2 : c.maybeHead = some v) (h3 : c.isCommit v = true) :
    getDataset c = some (some v) := by
  simp [getDataset, h1, h2, h3]

/-- Line 166 panics exactly on a dataset id that is not well formed and on a
dataset that refers to a value that is not a commit. -/
theorem getDataset_none_iff (c : Config) :
    getDataset c = none ↔
      (c.validID = false ∨ ∃ v, c.maybeHead = some v ∧ c.isCommit v = false) := by
  unfold getDataset
  cases hv : c.validID <;> cases hm : c.maybeHead with
  | none => simp
  | some v => cases hc : c.isCommit v <;> simp [hc]

theorem nodesOf_of_commit (c : Config) (v : Value) (h : getDataset c = some (some v)) :
    nodesOf c = c.commits v := by
  simp [nodesOf, h]

/-- The three kinds of state of a run: the first one; the one after a panic of
line 166 or after the return of line 171; a state of the pipeline. -/
theorem Inv_cases (c : Config) (s : State) (hi : Inv c s) :
    s = init ∨
    (headIsCommit c = false ∧ ∃ m,
      (m = MainPc.panicked ∧ getDataset c = none ∨
        m = MainPc.returned (some (notACommit none)) ∧ getDataset c = some none) ∧
      s = { init with mpc := m }) ∨
    (headIsCommit c = true ∧ s.iterCreated = true ∧ Pipe c s) := by
  unfold Inv at hi
  split at hi
  · exact Or.inl hi
  · obtain ⟨a, b, d⟩ := hi
    subst b
    exact Or.inr (Or.inl ⟨by simp [headIsCommit, a], _, Or.inr ⟨rfl, a⟩, d⟩)
  · obtain ⟨a, d⟩ := hi
    exact Or.inr (Or.inl ⟨by simp [headIsCommit, a], _, Or.inl ⟨rfl, a⟩, d⟩)
  · exact Or.inr (Or.inr hi)

theorem Inv_of_Pipe (c : Config) (s : State) (h1 : headIsCommit c = true)
    (h2 : s.iterCreated = true) (h3 : Pipe c s) : Inv c s := by
  have hm := h3.main
  unfold Inv
  split
  · rename_i hmpc
    simp [MainInv, hmpc] at hm
  · rename_i hmpc
    simp [MainInv, hmpc] at hm
  · rename_i hmpc
    simp [MainInv, hmpc] at hm
  · exact ⟨h1, h2, h3⟩

theorem step_iterCreated (c : Config) (s s' : State) (a : Action) (h : step c s a = some s')
    (h2 : s.iterCreated = true) : s'.iterCreated = true := by
  rcases s with ⟨ic, src, pulls, disp, done, queue, closed, slots, ppc, mpc, sink, sinkErr⟩
  simp only at h2
  subst h2
  cases a with
  | main =>
    cases mpc <;> simp only [step, stepMain] at h
    all_goals repeat' (split at h)
    all_goals (cases h <;> rfl)
  | copy r =>
    cases mpc <;> simp only [step, stepCopy] at h
    all_goals repeat' (split at h)
    all_goals (cases h <;> rfl)
  | producer =>
    cases ppc <;> simp only [step, stepProducer] at h
    all_goals repeat' (split at h)
    all_goals (cases h <;> rfl)
  | task i =>
    simp only [step, stepTask] at h
    split at h <;> cases h
    rfl

theorem Inv_init (c : Config) : Inv c init := by
  simp [Inv, init]

/-- Every step keeps the invariant. -/
theorem Inv_step (c : Config) (s s' : State) (a : Action) (hi : Inv c s)
    (h : step c s a = some s') : Inv c s' := by
  rcases Inv_cases c s hi with hs | ⟨hb, m, hm, hs⟩ | ⟨hc, hic, hp⟩
  · subst hs
    cases a with
    | main =>
      simp only [step, stepMain, init] at h
      split at h
      · rename_i hh
        cases h
        simp [Inv, hh, init]
      · rename_i hh
        cases h
        simp [Inv, hh, init]
      · rename_i v hh
        split at h
        · rename_i hc
          cases h
          refine Inv_of_Pipe c _ (by simp [headIsCommit, hh]) rfl ?_
          refine ⟨?_, ?_, ?_, ?_, ?_, ?_, ?_, ?_, ?_, ?_, ?_, ?_, ?_⟩
          · simp [nodesOf_of_commit c v hh]
          · simp
          · simp
          · simp [ProdInv]
          · simp
          · simp
          · simp
          · simp
          · simp [MainInv, popped, pushed]
          · simp [SinkInv]
          · simp
          · simp [receivedCount]
          · simp
        · rename_i hc
          exact absurd (getDataset_commit c v hh) hc
    | copy r => simp [step, stepCopy, init] at h
    | producer => simp [step, stepProducer, init] at h
    | task i => simp [step, stepTask, init] at h
  · subst hs
    rcases hm with ⟨hm, _⟩ | ⟨hm, _⟩ <;> subst hm <;>
      cases a <;> simp [step, stepMain, stepCopy, stepProducer, stepTask, init] at h
  · have hic2 := step_iterCreated c s s' a h hic
    refine Inv_of_Pipe c s' hc hic2 ?_
    cases a with
    | main =>
      refine Pipe_main c s s' hp ?_ h
      intro hst
      have := hp.main
      simp [MainInv, hst] at this
    | copy r => exact Pipe_copy c s s' r hp h
    | producer => exact Pipe_producer c s s' hp h
    | task i => exact Pipe_task c s s' i hp h

/-- Every run keeps the invariant. -/
theorem Inv_run (c : Config) (sched : List Action) (s s' : State) (hi : Inv c s)
    (h : run c sched s = some s') : Inv c s' := by
  induction sched generalizing s with
  | nil =>
    simp only [run] at h
    cases h
    exact hi
  | cons a as ih =>
    simp only [run] at h
    split at h
    · cases h
    · rename_i t ht
      exact ih t (Inv_step c s t a hi ht) h

theorem producer_enabled (c : Config) (s : State) (hprod : ProdInv c s)
    (hcl : s.closed = false) (hq : s.queue.length < c.parallelism) :
    ∃ s', stepProducer c s = some s' ∧ s'.sinkErr = s.sinkErr := by
  rcases s with ⟨ic, src, pulls, disp, done, queue, closed, slots, ppc, mpc, sink, sinkErr⟩
  simp only at hcl hq
  cases ppc with
  | idle => simp [ProdInv] at hprod
  | next => cases src <;> exact ⟨_, rfl, rfl⟩
  | cond ln =>
    cases ln with
    | none => exact ⟨_, rfl, rfl⟩
    | some n =>
      simp only [stepProducer]
      split <;> exact ⟨_, rfl, rfl⟩
  | make n => exact ⟨_, rfl, rfl⟩
  | send ch n =>
    simp only [stepProducer, hq, if_true]
    exact ⟨_, rfl, rfl⟩
  | spawn ch n => exact ⟨_, rfl, rfl⟩
  | incr => exact ⟨_, rfl, rfl⟩
  | close => exact ⟨_, rfl, rfl⟩
  | exited =>
    simp only [ProdInv] at hprod
    rw [hcl] at hprod
    simp at hprod

/-- While the calling goroutine has not returned some goroutine can move, without
a failed write. -/
theorem progress (c : Config) (s : State) (hi : Inv c s) (hK : 0 < c.parallelism)
    (hr : s.returned = false) : ∃ a s', step c s a = some s' ∧ s'.sinkErr = s.sinkErr := by
  rcases Inv_cases c s hi with hs | ⟨hb, m, hm, hs⟩ | ⟨hc, hic, hp⟩
  · subst hs
    refine ⟨Action.main, ?_⟩
    simp only [step, stepMain, init]
    split
    · exact ⟨_, rfl, rfl⟩
    · exact ⟨_, rfl, rfl⟩
    · split <;> exact ⟨_, rfl, rfl⟩
  · subst hs
    rcases hm with ⟨hm, _⟩ | ⟨hm, _⟩ <;> subst hm <;> simp [State.returned, init] at hr
  · obtain ⟨hsrc, hL, hN, hprod, hqcap, hqlen, hq, hdone, hmain, hsink, hslots, hrcv, hfail⟩ := hp
    rcases s with ⟨ic, src, pulls, disp, done, queue, closed, slots, ppc, mpc, sink, sinkErr⟩
    simp only at hsrc hL hN hqcap hqlen hq hdone hsink hslots hrcv hfail
    cases mpc with
    | start => simp [MainInv] at hmain
    | panicked => simp [MainInv] at hmain
    | range =>
      cases queue with
      | cons ch rest => exact ⟨Action.main, _, rfl, rfl⟩
      | nil =>
        cases closed with
        | true => exact ⟨Action.main, _, rfl, rfl⟩
        | false =>
          obtain ⟨s', h1, h2⟩ := producer_enabled c _ hprod rfl (by simpa using hK)
          exact ⟨Action.producer, s', h1, h2⟩
    | recv ch =>
      simp only [MainInv] at hmain
      obtain ⟨m1, m2, m3⟩ := hmain
      have hlt : ch < slots.length := by
        have h1 : popped (⟨ic, src, pulls, disp, done, queue, closed, slots, ppc, MainPc.recv ch, sink, sinkErr⟩ : State) ≤ slots.length := by
          cases ppc <;> simp only [popped, pushed] <;> omega
        omega
      obtain ⟨t, ht⟩ : ∃ t, slots[ch]? = some t := ⟨slots[ch], List.getElem?_eq_getElem hlt⟩
      obtain ⟨o1, o2, o3, o4⟩ := hslots ch t ht
      rcases t with ⟨n, pc⟩
      cases pc with
      | created =>
        obtain ⟨e1, e2⟩ := o4 rfl
        simp only at e2
        rcases e2 with e2 | e2
        · subst e2
          simp only [popped, pushed] at m3
          simp only [ProdInv] at hprod
          omega
        · subst e2
          exact ⟨Action.producer, _, rfl, rfl⟩
      | formatting =>
        refine ⟨Action.task ch, ?_⟩
        simp only [step, stepTask, List.get?_eq_getElem?, ht]
        exact ⟨_, rfl, rfl⟩
      | sending b =>
        refine ⟨Action.main, ?_⟩
        simp only [step, stepMain, List.get?_eq_getElem?, ht]
        exact ⟨_, rfl, rfl⟩
      | received =>
        have := o2.mp rfl
        simp only [receivedCount] at this
        omega
    | copy b => exact ⟨Action.copy none, _, rfl, rfl⟩
    | setDone => exact ⟨Action.main, _, rfl, rfl⟩
    | drain =>
      cases queue with
      | cons ch rest => exact ⟨Action.main, _, rfl, rfl⟩
      | nil =>
        cases closed with
        | true => exact ⟨Action.main, _, rfl, rfl⟩
        | false =>
          obtain ⟨s', h1, h2⟩ := producer_enabled c _ hprod rfl (by simpa using hK)
          exact ⟨Action.producer, s', h1, h2⟩
    | returned r => simp [State.returned] at hr

theorem run_append (c : Config) (as bs : List Action) (s : State) :
    run c (as ++ bs) s = (run c as s).bind (run c bs) := by
  induction as generalizing s with
  | nil => rfl
  | cons a as ih =>
    simp only [List.cons_append, run]
    split
    · rfl
    · exact ih _

/-- A run is no longer than the decrease of the variant. -/
theorem run_measure (c : Config) (sched : List Action) (s s' : State)
    (h : run c sched s = some s') : sched.length + measure c s' ≤ measure c s := by
  induction sched generalizing s with
  | nil =>
    simp only [run] at h
    cases h
    simp
  | cons a as ih =>
    simp only [run] at h
    split at h
    · cases h
    · rename_i t ht
      have := ih t h
      have := measure_step c s t a ht
      simp only [List.length_cons]
      omega

/-- Every state of a run can be continued to the return, without a further
failed write. -/
theorem exists_return (c : Config) (hK : 0 < c.parallelism) (n : Nat) :
    ∀ s, measure c s ≤ n → Inv c s →
      ∃ sched s', run c sched s = some s' ∧ s'.returned = true ∧ s'.sinkErr = s.sinkErr := by
  induction n with
  | zero =>
    intro s hm hi
    cases hr : s.returned with
    | true => exact ⟨[], s, rfl, hr, rfl⟩
    | false =>
      obtain ⟨a, t, h1, _⟩ := progress c s hi hK hr
      have := measure_step c s t a h1
      omega
  | succ n ih =>
    intro s hm hi
    cases hr : s.returned with
    | true => exact ⟨[], s, rfl, hr, rfl⟩
    | false =>
      obtain ⟨a, t, h1, h2⟩ := progress c s hi hK hr
      have hlt := measure_step c s t a h1
      obtain ⟨sched, s', r1, r2, r3⟩ := ih t (by omega) (Inv_step c s t a hi h1)
      refine ⟨a :: sched, s', ?_, r2, by rw [r3, h2]⟩
      simp only [run, h1]
      exact r1

/-- When no goroutine can move the calling goroutine has returned. -/
theorem stuck_returned (c : Config) (s : State) (hi : Inv c s) (hK : 0 < c.parallelism)
    (h : ∀ a, step c s a = none) : s.returned = true := by
  cases hr : s.returned with
  | true => rfl
  | false =>
    obtain ⟨a, t, h1, _⟩ := progress c s hi hK hr
    rw [h a] at h1
    cases h1

/-- Every state of a run of `nomsCmdLog` satisfies the invariant. -/
theorem Inv_reach (c : Config) (sched : List Action) (s : State)
    (h : nomsCmdLog c sched = some s) : Inv c s :=
  Inv_run c sched init s (Inv_init c) h

theorem nomsCmdLog_append (c : Config) (sched more : List Action) (s : State)
    (h : nomsCmdLog c sched = some s) : nomsCmdLog c (sched ++ more) = run c more s := by
  unfold nomsCmdLog at h ⊢
  rw [run_append, h]
  rfl

theorem flatten_take_append_drop (c : Config) (k : Nat) :
    (((nodesOf c).take k).map (rendering c)).flatten
        ++ (((nodesOf c).drop k).map (rendering c)).flatten
      = ((nodesOf c).map (rendering c)).flatten := by
  rw [← List.flatten_append, ← List.map_append, List.take_append_drop]

theorem sink_of_ok (c : Config) (s : State) (hi : Inv c s) (hok : s.sinkErr = false) :
    s.sink = ((nodesOf c).take s.sink.length).map (rendering c) := by
  rcases Inv_cases c s hi with hs | ⟨hb, m, hm, hs⟩ | ⟨hc, hic, hp⟩
  · subst hs; simp [init]
  · subst hs; simp [init]
  · have := hp.sink
    simpa [SinkInv, hok] using this

theorem closed_exited (c : Config) (s : State) (hprod : ProdInv c s) (hcl : s.closed = true) :
    s.ppc = ProdPc.exited ∧ s.slots.length = s.displayed ∧ s.pulls = s.displayed + 1 ∧
      (s.sinkErr = false → s.displayed = min (nodesOf c).length (limitOf c)) := by
  unfold ProdInv at hprod
  split at hprod
  · exact absurd hprod id
  all_goals try (have h := hprod.2.2.1; rw [hcl] at h; exact Bool.noConfusion h)
  all_goals try (have h := hprod.2.2; rw [hcl] at h; exact Bool.noConfusion h)
  rename_i hx
  exact ⟨hx, hprod.2.1, hprod.1, hprod.2.2.2⟩

theorem nodesOf_nil_of_bad (c : Config) (hb : headIsCommit c = false) : nodesOf c = [] := by
  unfold headIsCommit at hb
  unfold nodesOf
  split
  · rename_i v hv
    simp [hv] at hb
  · rfl

/-- A state of the pipeline in which the call is over: it has returned nil. -/
theorem Pipe_returned (c : Config) (s : State) (hp : Pipe c s) (hret : s.returned = true) :
    s.mpc = MainPc.returned none ∧ s.closed = true ∧ s.queue = [] ∧
      (s.sinkErr = false → popped s = s.sink.length) ∧ (s.sinkErr = true → s.done = true) := by
  have hmain := hp.main
  cases hmpc : s.mpc with
  | returned r =>
    simp only [MainInv, hmpc] at hmain
    obtain ⟨m1, m2, m3, m4, m5⟩ := hmain
    exact ⟨by rw [m1], m2, m3, m4, m5⟩
  | panicked => simp [MainInv, hmpc] at hmain
  | start => simp [State.returned, hmpc] at hret
  | range => simp [State.returned, hmpc] at hret
  | recv ch => simp [State.returned, hmpc] at hret
  | copy b => simp [State.returned, hmpc] at hret
  | setDone => simp [State.returned, hmpc] at hret
  | drain => simp [State.returned, hmpc] at hret

/-- At the return without a failed write, the number of renderings written. -/
theorem returned_count (c : Config) (s : State) (hi : Inv c s) (hok : s.sinkErr = false)
    (hret : s.returned = true) : s.sink.length = min (nodesOf c).length (limitOf c) := by
  rcases Inv_cases c s hi with hs | ⟨hb, m, hm, hs⟩ | ⟨hc, hic, hp⟩
  · subst hs; simp [State.returned, init] at hret
  · subst hs
    simp [init, nodesOf_nil_of_bad c hb]
  · obtain ⟨_, m2, m3, m4, _⟩ := Pipe_returned c s hp hret
    obtain ⟨e1, e2, e3, e4⟩ := closed_exited c s hp.prod m2
    have := m4 hok
    have := e4 hok
    simp only [popped, pushed, e1, m3, List.length_nil] at *
    omega

theorem foldl_quotes (l : List Char) (q : Nat) :
    l.foldl (fun q c => if c = '"' then q + 1 else q) q = q + l.count '"' := by
  induction l generalizing q with
  | nil => simp
  | cons a l ih =>
    simp only [List.foldl_cons, ih, List.count_cons]
    by_cases h : a = '"'
    · subst h; simp; omega
    · have h2 : ¬ (a == '"') = true := by simpa using h
      simp [h, h2]

theorem countQuotes_eq (line : String) (q : Nat) : countQuotes line q = q + quotesOf line := by
  unfold countQuotes quotesOf
  exact foldl_quotes _ _

theorem totalQuotes_cons (l : String) (ls : List String) :
    totalQuotes (l :: ls) = quotesOf l + totalQuotes ls := by
  simp [totalQuotes]

theorem totalQuotes_nil : totalQuotes [] = 0 := rfl

theorem loop_cons_ok (line : String) (rest : List (Except GoError String)) (prompt : String)
    (q : Nat) (res : String) :
    readFromRL.loop (Except.ok line :: rest) prompt q res
      = if (q + quotesOf line) % 2 = 0 then some ((res ++ (line ++ "\n"), none), ⟨rest, prompt⟩)
        else readFromRL.loop rest "... " (q + quotesOf line) (res ++ (line ++ "\n")) := by
  rw [← countQuotes_eq]
  rfl

/-- The loop returns the lines read at the first even running count. -/
theorem loop_ok (lines : List String) (rest : List (Except GoError String)) :
    ∀ (prompt : String) (q : Nat) (res : String), lines ≠ [] →
      (∀ i, 0 < i → i < lines.length → (q + totalQuotes (lines.take i)) % 2 = 1) →
      (q + totalQuotes lines) % 2 = 0 →
      ∃ p, readFromRL.loop (lines.map Except.ok ++ rest) prompt q res
        = some ((res ++ joinLines lines, none), ⟨rest, p⟩) := by
  induction lines with
  | nil => intro _ _ _ h; exact absurd rfl h
  | cons l ls ih =>
    intro prompt q res _ hodd heven
    rw [List.map_cons, List.cons_append, loop_cons_ok]
    cases ls with
    | nil =>
      rw [totalQuotes_cons, totalQuotes_nil, Nat.add_zero] at heven
      rw [if_pos heven]
      refine ⟨prompt, ?_⟩
      simp [joinLines]
    | cons l2 ls2 =>
      have h1 := hodd 1 (by omega) (by simp)
      rw [List.take_succ_cons, List.take_zero, totalQuotes_cons, totalQuotes_nil,
        Nat.add_zero] at h1
      have hne : ¬ (q + quotesOf l) % 2 = 0 := by omega
      rw [if_neg hne]
      obtain ⟨p, hp⟩ := ih "... " (q + quotesOf l) (res ++ (l ++ "\n")) (by simp)
        (by
          intro i hi0 hi
          have := hodd (i + 1) (by omega) (by simp at hi ⊢; omega)
          rw [List.take_succ_cons, totalQuotes_cons] at this
          rw [Nat.add_assoc]; exact this)
        (by
          rw [totalQuotes_cons] at heven
          rw [Nat.add_assoc]; exact heven)
      refine ⟨p, ?_⟩
      rw [hp]
      simp [joinLines, String.append_assoc]

/-- The loop returns the error of `Readline()` when every running count is odd. -/
theorem loop_err (lines : List String) (rest : List (Except GoError String)) (err : GoError) :
    ∀ (prompt : String) (q : Nat) (res : String),
      (∀ i, 0 < i → i ≤ lines.length → (q + totalQuotes (lines.take i)) % 2 = 1) →
      ∃ p, readFromRL.loop (lines.map Except.ok ++ Except.error err :: rest) prompt q res
        = some (("", some err), ⟨rest, p⟩) := by
  induction lines with
  | nil =>
    intro prompt q res _
    exact ⟨prompt, rfl⟩
  | cons l ls ih =>
    intro prompt q res hodd
    rw [List.map_cons, List.cons_append, loop_cons_ok]
    have h1 := hodd 1 (by omega) (by simp)
    rw [List.take_succ_cons, List.take_zero, totalQuotes_cons, totalQuotes_nil,
      Nat.add_zero] at h1
    have hne : ¬ (q + quotesOf l) % 2 = 0 := by omega
    rw [if_neg hne]
    exact ih "... " (q + quotesOf l) (res ++ (l ++ "\n"))
      (by
        intro i hi0 hi
        have := hodd (i + 1) (by omega) (by simp at hi ⊢; omega)
        rw [List.take_succ_cons, totalQuotes_cons] at this
        rw [Nat.add_assoc]; exact this)

theorem measure_init (c : Config) : measure c init = 90 * (nodesOf c).length + 32 := by
  simp [measure, init, MainPc.rank, ProdPc.rank]

theorem limitOf_eq (c : Config) :
    limitOf c = if 0 < c.maxCommits then c.maxCommits.toNat else 2147483647 := by
  unfold limitOf maxCommitsOf maxInt32
  split <;> split <;> omega

theorem pulls_bound (c : Config) (s : State) (hi : Inv c s) :
    s.pulls ≤ s.displayed + 1 ∧ s.displayed ≤ limitOf c ∧ s.slots.length ≤ limitOf c ∧
      s.slots.length ≤ (nodesOf c).length := by
  rcases Inv_cases c s hi with hs | ⟨hb, m, hm, hs⟩ | ⟨hc, hic, hp⟩
  · subst hs; simp [init]
  · subst hs; simp [init]
  · have h1 := hp.dispL
    have h2 := hp.prod
    have h3 := hp.dispN
    unfold ProdInv at h2
    split at h2
    · exact absurd h2 id
    all_goals (refine ⟨by omega, h1, by omega, ?_⟩)
    all_goals first
      | omega
      | (have h9 := (List.getElem?_eq_some_iff.mp h2.2.2.2.1).1; omega)

theorem step_sink (c : Config) (s s' : State) (a : Action) (h : step c s a = some s')
    (ha : ∀ r, a ≠ Action.copy r) : s'.sink = s.sink ∧ s'.sinkErr = s.sinkErr := by
  rcases s with ⟨ic, src, pulls, disp, done, queue, closed, slots, ppc, mpc, sink, sinkErr⟩
  cases a with
  | main =>
    cases mpc <;> simp only [step, stepMain] at h
    all_goals repeat' (split at h)
    all_goals (cases h <;> exact ⟨rfl, rfl⟩)
  | copy r => exact absurd rfl (ha r)
  | producer =>
    cases ppc <;> simp only [step, stepProducer] at h
    all_goals repeat' (split at h)
    all_goals (cases h <;> exact ⟨rfl, rfl⟩)
  | task i =>
    simp only [step, stepTask] at h
    split at h <;> cases h
    exact ⟨rfl, rfl⟩

/-- After a failed write no step writes to the pager. -/
theorem sink_frozen_step (c : Config) (s s' : State) (a : Action) (hi : Inv c s)
    (he : s.sinkErr = true) (h : step c s a = some s') :
    s'.sink = s.sink ∧ s'.sinkErr = true := by
  cases a with
  | copy r =>
    exfalso
    rcases Inv_cases c s hi with hs | ⟨hb, m, hm, hs⟩ | ⟨hc, hic, hp⟩
    · subst hs; simp [init] at he
    · subst hs; simp [init] at he
    · have hm := hp.main
      simp only [step, stepCopy] at h
      split at h
      · rename_i b hb
        simp only [MainInv, hb] at hm
        rw [he] at hm
        cases hm.1
      · cases h
  | main =>
    have := step_sink c s s' Action.main h (by intro r; simp)
    exact ⟨this.1, by rw [this.2, he]⟩
  | producer =>
    have := step_sink c s s' Action.producer h (by intro r; simp)
    exact ⟨this.1, by rw [this.2, he]⟩
  | task i =>
    have := step_sink c s s' (Action.task i) h (by intro r; simp)
    exact ⟨this.1, by rw [this.2, he]⟩

theorem sink_frozen_run (c : Config) (more : List Action) (s s' : State) (hi : Inv c s)
    (he : s.sinkErr = true) (h : run c more s = some s') :
    s'.sink = s.sink ∧ s'.sinkErr = true := by
  induction more generalizing s with
  | nil =>
    simp only [run] at h
    cases h
    exact ⟨rfl, he⟩
  | cons a as ih =>
    simp only [run] at h
    split at h
    · cases h
    · rename_i t ht
      obtain ⟨h1, h2⟩ := sink_frozen_step c s t a hi he ht
      obtain ⟨h3, h4⟩ := ih t (Inv_step c s t a hi ht) h2 h
      exact ⟨by rw [h3, h1], h4⟩

theorem sink_of_err (c : Config) (s : State) (hi : Inv c s) (he : s.sinkErr = true) :
    ∃ k n, 0 < s.sink.length ∧ (nodesOf c)[s.sink.length - 1]? = some n ∧
      s.sink = ((nodesOf c).take (s.sink.length - 1)).map (rendering c)
        ++ [(rendering c n).take k] := by
  rcases Inv_cases c s hi with hs | ⟨hb, m, hm, hs⟩ | ⟨hc, hic, hp⟩
  · subst hs; simp [init] at he
  · subst hs; simp [init] at he
  · have := hp.sink
    simp only [SinkInv, he, if_true] at this
    obtain ⟨k, n, h1, h2, h3⟩ := this
    exact ⟨k, n, h2, h1, h3⟩

theorem returned_after_err (c : Config) (s : State) (hi : Inv c s) (he : s.sinkErr = true)
    (hret : s.returned = true) :
    s.mpc = MainPc.returned none ∧ s.queue = [] ∧ s.closed = true ∧ s.done = true := by
  rcases Inv_cases c s hi with hs | ⟨hb, m, hm, hs⟩ | ⟨hc, hic, hp⟩
  · subst hs; simp [init] at he
  · subst hs; simp [init] at he
  · obtain ⟨m1, m2, m3, _, m5⟩ := Pipe_returned c s hp hret
    exact ⟨m1, m3, m2, m5 he⟩

theorem countP_le_of_false (p : Slot → Bool) (l : List Slot) :
    ∀ (r : Nat), r ≤ l.length → (∀ i t, l[i]? = some t → i < r → p t = false) →
      l.countP p + r ≤ l.length := by
  induction l with
  | nil => intro r hr _; simpa using hr
  | cons a l ih =>
    intro r hr h
    cases r with
    | zero =>
      have : (a :: l).countP p ≤ (a :: l).length := List.countP_le_length p
      omega
    | succ r =>
      have ha : p a = false := h 0 a (by simp) (by omega)
      have := ih r (by simpa using hr) (fun i t hit hlt => h (i + 1) t (by simpa using hit) (by omega))
      simp only [List.countP_cons, ha, List.length_cons]
      simp
      omega

theorem countP_le_of_false_and (p : Slot → Bool) (l : List Slot) :
    ∀ (r d : Nat), r ≤ d → d < l.length →
      (∀ i t, l[i]? = some t → (i < r ∨ i = d) → p t = false) →
      l.countP p + r + 1 ≤ l.length := by
  induction l with
  | nil => intro r d _ hd _; simp at hd
  | cons a l ih =>
    intro r d hrd hd h
    cases d with
    | zero =>
      have hr : r = 0 := by omega
      subst hr
      have ha : p a = false := h 0 a (by simp) (Or.inr rfl)
      have : l.countP p ≤ l.length := List.countP_le_length p
      simp only [List.countP_cons, ha, List.length_cons]
      simp
      omega
    | succ d =>
      cases r with
      | zero =>
        have := ih 0 d (by omega) (by simpa using hd)
          (fun i t hit hlt => h (i + 1) t (by simpa using hit) (by omega))
        simp only [List.countP_cons, List.length_cons]
        split <;> omega
      | succ r =>
        have ha : p a = false := h 0 a (by simp) (Or.inl (by omega))
        have := ih r d (by omega) (by simpa using hd)
          (fun i t hit hlt => h (i + 1) t (by simpa using hit) (by omega))
        simp only [List.countP_cons, ha, List.length_cons]
        simp
        omega

/-- The channels made exceed the values received by at most `parallelism + 1`,
or one more while the producer is at its send. -/
theorem slots_le (c : Config) (s : State) (hp : Pipe c s) :
    s.slots.length ≤ receivedCount s + c.parallelism + 1
      + (match s.ppc with | ProdPc.send _ _ => 1 | _ => 0) := by
  rcases s with ⟨ic, src, pulls, disp, done, queue, closed, slots, ppc, mpc, sink, sinkErr⟩
  obtain ⟨hsrc, hL, hN, hprod, hqcap, hqlen, hq, hdone, hmain, hsink, hslots, hrcv, hfail⟩ := hp
  simp only at hqcap hqlen hfail
  clear hsrc hq hsink hslots hdone hL hN hrcv
  cases sinkErr <;> cases done <;> cases mpc <;>
    simp [MainInv, receivedCount, popped] at hmain hfail ⊢ <;>
    cases ppc <;> simp [pushed, ProdInv] at hmain hqlen hprod hfail ⊢ <;> omega

/-- At most `parallelism + 1` render goroutines are in flight. -/
theorem inFlight_bound (c : Config) (s : State) (hi : Inv c s) :
    inFlight s ≤ c.parallelism + 1 := by
  rcases Inv_cases c s hi with hs | ⟨hb, m, hm, hs⟩ | ⟨hc, hic, hp⟩
  · subst hs; simp [inFlight, init]
  · subst hs; simp [inFlight, init]
  · have hle := slots_le c s hp
    have hfalse : ∀ (i : Nat) (t : Slot), s.slots[i]? = some t → i < receivedCount s →
        t.pc.inFlight = false := by
      intro i t hit hlt
      have := (hp.slots i t hit).2.1.mpr hlt
      rw [this]
      rfl
    have hr : receivedCount s ≤ pushed s := by
      have h1 := hp.rcv
      unfold popped at h1
      omega
    unfold inFlight
    cases hppc : s.ppc with
    | send ch n =>
      have hprod := hp.prod
      simp only [ProdInv, hppc] at hprod
      obtain ⟨_, p2, _, _, _, _, p7⟩ := hprod
      simp only [pushed, hppc] at hr
      simp only [hppc] at hle
      have := countP_le_of_false_and (fun t => t.pc.inFlight) s.slots (receivedCount s)
        s.displayed (by omega) (by omega) (by
          intro i t hit h
          rcases h with h | h
          · exact hfalse i t hit h
          · subst h
            rw [p7] at hit
            cases hit
            rfl)
      omega
    | _ =>
      simp only [pushed, hppc] at hr
      simp only [hppc] at hle
      have := countP_le_of_false (fun t => t.pc.inFlight) s.slots (receivedCount s)
        (by omega) hfalse
      omega

theorem sink_get (c : Config) (s : State) (hi : Inv c s) (hok : s.sinkErr = false) (i : Nat)
    (x : Bytes) (hx : s.sink[i]? = some x) :
    ∃ n, (nodesOf c)[i]? = some n ∧ x = rendering c n := by
  have h := sink_of_ok c s hi hok
  rw [h, List.getElem?_map] at hx
  cases hn : ((nodesOf c).take s.sink.length)[i]? with
  | none => rw [hn] at hx; cases hx
  | some n =>
    rw [hn] at hx
    simp only [Option.map_some', Option.some.injEq] at hx
    rw [List.getElem?_take] at hn
    split at hn
    · exact ⟨n, hn, hx.symm⟩
    · cases hn

theorem slot_value (c : Config) (s : State) (hi : Inv c s) (i : Nat) (t : Slot) (b : Bytes)
    (ht : s.slots[i]? = some t) (hb : t.pc = SlotPc.sending b) :
    b = (c.printCommit t.node).1 := by
  rcases Inv_cases c s hi with hs | ⟨hb, m, hm, hs⟩ | ⟨hc, hic, hp⟩
  · subst hs; simp [init] at ht
  · subst hs; simp [init] at ht
  · exact (hp.slots i t ht).2.2.1 b hb

/-- At most `parallelism + 2` channels are made and not yet read. -/
theorem unreadSlots_bound (c : Config) (s : State) (hi : Inv c s) :
    unreadSlots s ≤ c.parallelism + 2 := by
  rcases Inv_cases c s hi with hs | ⟨hb, m, hm, hs⟩ | ⟨hc, hic, hp⟩
  · subst hs; simp [unreadSlots, init]
  · subst hs; simp [unreadSlots, init]
  · have hle := slots_le c s hp
    have hfalse : ∀ (i : Nat) (t : Slot), s.slots[i]? = some t → i < receivedCount s →
        t.pc.unread = false := by
      intro i t hit hlt
      have := (hp.slots i t hit).2.1.mpr hlt
      rw [this]
      rfl
    have hr : receivedCount s ≤ s.slots.length := by
      have h1 := hp.rcv
      have h2 : pushed s ≤ s.slots.length := by
        unfold pushed
        split <;> omega
      unfold popped at h1
      omega
    have := countP_le_of_false (fun t => t.pc.unread) s.slots (receivedCount s) hr hfalse
    have h3 : (match s.ppc with | ProdPc.send _ _ => 1 | _ => 0) ≤ 1 := by
      split <;> omega
    unfold unreadSlots
    omega

/-! ## The claims -/

/-- C1 (order preservation).  In every state a run of `nomsCmdLog` reaches
without a failed write, under every schedule of the goroutines, the bytes the
pager has received are a leading part of the concatenation of the renderings
of the nodes in the order the iterator yields them; when the function has
returned they are the concatenation of the renderings of the nodes admitted
(all of them when the limit is not below their number).  Such a run can
always be continued to the return without a failed write, it has returned
when no goroutine can move, and no run is longer than `90 * N + 32` steps. -/
theorem nomsCmdLog_order_preservation (c : Config) (hK : 0 < c.parallelism)
    (sched : List Action) (s : State) (hrun : nomsCmdLog c sched = some s)
    (hok : s.sinkErr = false) :
    written s <+: ((nodesOf c).map (rendering c)).flatten ∧
    (s.returned = true →
      written s = (((nodesOf c).take (limitOf c)).map (rendering c)).flatten) ∧
    (s.returned = true → (nodesOf c).length ≤ limitOf c →
      written s = ((nodesOf c).map (rendering c)).flatten) ∧
    (∃ more s', nomsCmdLog c (sched ++ more) = some s' ∧ s'.returned = true ∧
      s'.sinkErr = false) ∧
    ((∀ a, step c s a = none) → s.returned = true) ∧
    sched.length ≤ 90 * (nodesOf c).length + 32 := by
  have hi := Inv_reach c sched s hrun
  have hsink := sink_of_ok c s hi hok
  have hw : written s = (((nodesOf c).take s.sink.length).map (rendering c)).flatten := by
    unfold written
    rw [← hsink]
  refine ⟨?_, ?_, ?_, ?_, ?_, ?_⟩
  · exact ⟨_, by rw [hw]; exact flatten_take_append_drop c s.sink.length⟩
  · intro hret
    rw [hw, returned_count c s hi hok hret]
    congr 2
    rw [List.take_eq_take]
    omega
  · intro hret hle
    rw [hw, returned_count c s hi hok hret, List.take_of_length_le]
    omega
  · obtain ⟨more, s', h1, h2, h3⟩ := exists_return c hK (measure c s) s (Nat.le_refl _) hi
    exact ⟨more, s', by rw [nomsCmdLog_append c sched more s hrun]; exact h1, h2,
      by rw [h3, hok]⟩
  · exact stuck_returned c s hi hK
  · have := run_measure c sched init s hrun
    rw [measure_init] at this
    omega

/-- C1 at a run of two nodes in which the second rendering is ready first. -/
theorem nomsCmdLog_order_preservation_witness :
    0 < cfgTwo.parallelism ∧ nomsCmdLog cfgTwo schedRev = some finalRev ∧
      finalRev.sinkErr = false ∧ finalRev.returned = true ∧
      written finalRev = [10, 11, 20, 21] ∧
      written finalRev = ((nodesOf cfgTwo).map (rendering cfgTwo)).flatten :=
  ⟨by decide, by decide, rfl, rfl, by decide,
    (nomsCmdLog_order_preservation cfgTwo (by decide) schedRev finalRev (by decide) rfl).2.2.1
      rfl (by decide)⟩

/-- C2 (number of renderings).  When a run of `nomsCmdLog` without a failed
write has returned, the pager has received exactly `min N M'` renderings, those
of the first `min N M'` nodes, where `N` is the number of nodes of the source
and `M'` is `maxCommits` when that is positive and `math.MaxInt32` otherwise:
exactly `M` when `0 < M < N`, every node when `M ≤ 0` and `N < 2^31 - 1`, none
for an empty source and one for a source of one node.  Every run without a
failed write can be continued to the return without a failed write. -/
theorem nomsCmdLog_number_of_renderings (c : Config) (hK : 0 < c.parallelism)
    (sched : List Action) (s : State) (hrun : nomsCmdLog c sched = some s)
    (hok : s.sinkErr = false) :
    (s.returned = true →
      s.sink.length = min (nodesOf c).length
        (if 0 < c.maxCommits then c.maxCommits.toNat else 2147483647) ∧
      s.sink = ((nodesOf c).take s.sink.length).map (rendering c) ∧
      (0 < c.maxCommits → c.maxCommits < (nodesOf c).length →
        (s.sink.length : Int) = c.maxCommits) ∧
      (c.maxCommits ≤ 0 → (nodesOf c).length < 2147483647 →
        s.sink.length = (nodesOf c).length) ∧
      (nodesOf c = [] → s.sink = []) ∧
      ((nodesOf c).length = 1 → s.sink.length = 1)) ∧
    (∃ more s', nomsCmdLog c (sched ++ more) = some s' ∧ s'.returned = true ∧
      s'.sinkErr = false) := by
  have hi := Inv_reach c sched s hrun
  constructor
  · intro hret
    have hn := returned_count c s hi hok hret
    rw [limitOf_eq] at hn
    refine ⟨hn, sink_of_ok c s hi hok, ?_, ?_, ?_, ?_⟩
    · intro h1 h2
      rw [if_pos h1] at hn
      omega
    · intro h1 h2
      rw [if_neg (by omega)] at hn
      omega
    · intro h1
      rw [h1] at hn
      simpa using hn
    · intro h1
      rw [hn, h1]
      split <;> omega
  · obtain ⟨more, s', h1, h2, h3⟩ := exists_return c hK (measure c s) s (Nat.le_refl _) hi
    exact ⟨more, s', by rw [nomsCmdLog_append c sched more s hrun]; exact h1, h2,
      by rw [h3, hok]⟩

/-- C2 at a run with `maxCommits = 1` over a source of two nodes. -/
theorem nomsCmdLog_number_of_renderings_witness :
    0 < cfgLimit.parallelism ∧ nomsCmdLog cfgLimit schedLimit = some finalLimit ∧
      finalLimit.sinkErr = false ∧ finalLimit.returned = true ∧
      (0 : Int) < cfgLimit.maxCommits ∧ cfgLimit.maxCommits < (nodesOf cfgLimit).length ∧
      (finalLimit.sink.length : Int) = cfgLimit.maxCommits :=
  ⟨by decide, by decide, rfl, rfl, by decide, by decide,
    ((nomsCmdLog_number_of_renderings cfgLimit (by decide) schedLimit finalLimit (by decide)
      rfl).1 rfl).2.2.1 (by decide) (by decide)⟩

/-- C3, as the code has it.  With `maxCommits = M > 0`, in every state a run of
`nomsCmdLog` reaches `iter.Next()` has been called at most `M + 1` times, and
at most `M` channels have been made: the loop condition is evaluated after the
pull, so the node after the limit is pulled and dropped.  When the source has
more than `M` nodes and the run has returned without a failed write, the
number of calls is `M + 1`. -/
theorem nomsCmdLog_limit_pulls (c : Config) (hM : 0 < c.maxCommits) (sched : List Action)
    (s : State) (hrun : nomsCmdLog c sched = some s) :
    (s.pulls : Int) ≤ c.maxCommits + 1 ∧ (s.displayed : Int) ≤ c.maxCommits ∧
      (s.slots.length : Int) ≤ c.maxCommits ∧
      (s.returned = true → s.sinkErr = false → c.maxCommits < (nodesOf c).length →
        (s.pulls : Int) = c.maxCommits + 1) := by
  have hi := Inv_reach c sched s hrun
  obtain ⟨h1, h2, h3, _⟩ := pulls_bound c s hi
  rw [limitOf_eq, if_pos hM] at h2 h3
  refine ⟨by omega, by omega, by omega, ?_⟩
  intro hret hok hlt
  rcases Inv_cases c s hi with hs | ⟨hb, m, hm, hs⟩ | ⟨hc, hic, hp⟩
  · subst hs; simp [State.returned, init] at hret
  · rw [nodesOf_nil_of_bad c hb] at hlt
    simp only [List.length_nil] at hlt
    omega
  · obtain ⟨e1, e2, e3, e4⟩ := closed_exited c s hp.prod (Pipe_returned c s hp hret).2.1
    have h5 := e4 hok
    rw [limitOf_eq, if_pos hM] at h5
    omega

/-- C3, as the code has it, at a run with `maxCommits = 1`. -/
theorem nomsCmdLog_limit_pulls_witness :
    (0 : Int) < cfgLimit.maxCommits ∧ nomsCmdLog cfgLimit schedPulls = some statePulls ∧
      (statePulls.pulls : Int) ≤ cfgLimit.maxCommits + 1 :=
  ⟨by decide, by decide,
    (nomsCmdLog_limit_pulls cfgLimit (by decide) schedPulls statePulls (by decide)).1⟩

/-- C3 as stated fails: with `maxCommits = 1` and a source of two nodes the
producer calls `iter.Next()` twice. -/
theorem nomsCmdLog_limit_pulls_counterexample :
    (0 : Int) < cfgLimit.maxCommits ∧ cfgLimit.maxCommits < (nodesOf cfgLimit).length ∧
      nomsCmdLog cfgLimit schedPulls = some statePulls ∧
      ¬ ((statePulls.pulls : Int) ≤ cfgLimit.maxCommits) :=
  ⟨by decide, by decide, by decide, by decide⟩

/-- C4, as the code has it.  When the head is a commit, the value `nomsCmdLog`
returns is nil in every run, also after a failed write to the pager; and every
run can be continued to such a return. -/
theorem nomsCmdLog_returns_nil (c : Config) (hK : 0 < c.parallelism)
    (hhead : headIsCommit c = true) (sched : List Action) (s : State)
    (hrun : nomsCmdLog c sched = some s) :
    (∀ e, s.mpc = MainPc.returned e → e = none) ∧
    (∃ more s', nomsCmdLog c (sched ++ more) = some s' ∧ s'.mpc = MainPc.returned none ∧
      s'.sinkErr = s.sinkErr) := by
  have hi := Inv_reach c sched s hrun
  have key : ∀ t, Inv c t → ∀ e, t.mpc = MainPc.returned e → e = none := by
    intro t ht e he
    rcases Inv_cases c t ht with hs | ⟨hb, m, hm, hs⟩ | ⟨hc, hic, hp⟩
    · subst hs; simp [init] at he
    · rw [hhead] at hb; cases hb
    · have := hp.main
      simp only [MainInv, he] at this
      exact this.1
  refine ⟨key s hi, ?_⟩
  obtain ⟨more, s', h1, h2, h3⟩ := exists_return c hK (measure c s) s (Nat.le_refl _) hi
  have h4 : nomsCmdLog c (sched ++ more) = some s' := by
    rw [nomsCmdLog_append c sched more s hrun]
    exact h1
  refine ⟨more, s', h4, ?_, h3⟩
  have hi' := Inv_reach c _ s' h4
  rcases Inv_cases c s' hi' with hs | ⟨hb, m, hm, hs⟩ | ⟨hc, hic, hp⟩
  · subst hs; simp [State.returned, init] at h2
  · rw [hhead] at hb; cases hb
  · exact (Pipe_returned c s' hp h2).1

/-- C4, as the code has it, at a run in which the first write fails. -/
theorem nomsCmdLog_returns_nil_witness :
    0 < cfgTwo.parallelism ∧ headIsCommit cfgTwo = true ∧
      nomsCmdLog cfgTwo schedLeak = some finalLeak ∧ finalLeak.sinkErr = true ∧
      ∀ e, finalLeak.mpc = MainPc.returned e → e = none :=
  ⟨by decide, by decide, by decide, rfl,
    (nomsCmdLog_returns_nil cfgTwo (by decide) (by decide) schedLeak finalLeak (by decide)).1⟩

/-- C4 as stated fails: a run in which the write of the first rendering fails
returns nil. -/
theorem nomsCmdLog_sink_failure_counterexample :
    nomsCmdLog cfgTwo schedLeak = some finalLeak ∧ finalLeak.sinkErr = true ∧
      finalLeak.mpc = MainPc.returned none ∧
      ¬ ∃ e, finalLeak.mpc = MainPc.returned (some e) :=
  ⟨by decide, rfl, rfl, by rintro ⟨e, he⟩; simp [finalLeak] at he⟩

/-- C5 (cancellation).  Let a run of `nomsCmdLog` reach a state in which a
write to the pager has failed, and let `j` be the number of `io.Copy` calls
made.  Then the pager has received the renderings of the first `j - 1` nodes,
whole and in order, followed by a leading part of the rendering of node `j`;
in every continuation no further `io.Copy` call is made; every continuation
that has returned has returned nil with `bytesChan` closed and empty; a
continuation to the return exists, a continuation in which no goroutine can
move has returned, and no run is longer than `90 * N + 32` steps. -/
theorem nomsCmdLog_cancellation (c : Config) (hK : 0 < c.parallelism) (sched : List Action)
    (s : State) (hrun : nomsCmdLog c sched = some s) (herr : s.sinkErr = true) :
    (∃ k n, 0 < s.sink.length ∧ (nodesOf c)[s.sink.length - 1]? = some n ∧
      s.sink = ((nodesOf c).take (s.sink.length - 1)).map (rendering c)
        ++ [(rendering c n).take k]) ∧
    (∀ more s', run c more s = some s' → s'.sink = s.sink ∧ s'.sinkErr = true) ∧
    (∀ more s', run c more s = some s' → s'.returned = true →
      s'.mpc = MainPc.returned none ∧ s'.queue = [] ∧ s'.closed = true) ∧
    (∃ more s', run c more s = some s' ∧ s'.returned = true) ∧
    (∀ more s', run c more s = some s' → (∀ a, step c s' a = none) → s'.returned = true) ∧
    (∀ more s', run c more s = some s' →
      sched.length + more.length ≤ 90 * (nodesOf c).length + 32) := by
  have hi := Inv_reach c sched s hrun
  refine ⟨sink_of_err c s hi herr, ?_, ?_, ?_, ?_, ?_⟩
  · intro more s' h
    exact sink_frozen_run c more s s' hi herr h
  · intro more s' h hret
    have hi' := Inv_run c more s s' hi h
    have := returned_after_err c s' hi' (sink_frozen_run c more s s' hi herr h).2 hret
    exact ⟨this.1, this.2.1, this.2.2.1⟩
  · obtain ⟨more, s', h1, h2, _⟩ := exists_return c hK (measure c s) s (Nat.le_refl _) hi
    exact ⟨more, s', h1, h2⟩
  · intro more s' h hst
    exact stuck_returned c s' (Inv_run c more s s' hi h) hK hst
  · intro more s' h
    have h1 := run_measure c sched init s hrun
    have h2 := run_measure c more s s' h
    rw [measure_init] at h1
    omega

/-- C5 at a run in which the second write fails after one byte. -/
theorem nomsCmdLog_cancellation_witness :
    0 < cfgTwo.parallelism ∧ nomsCmdLog cfgTwo schedFailSecond = some stateFailSecond ∧
      stateFailSecond.sinkErr = true ∧ stateFailSecond.sink = [[10, 11], [20]] ∧
      ∀ more s', run cfgTwo more stateFailSecond = some s' →
        s'.sink = stateFailSecond.sink ∧ s'.sinkErr = true :=
  ⟨by decide, by decide, rfl, rfl,
    (nomsCmdLog_cancellation cfgTwo (by decide) schedFailSecond stateFailSecond (by decide)
      rfl).2.1⟩

/-- C6, as the code has it.  When the dataset has no head, the first step of
`nomsCmdLog` returns the error of line 171.  When the dataset id is not well
formed or the dataset refers to a value that is not a commit, `db.GetDataset`
panics at line 166: the first step leaves `nomsCmdLog` and no value is ever
returned.  In all these cases, in every state of the run the iterator is not
made, no node is pulled, no channel or goroutine is made and the pager has
received nothing.  When the head is a commit no state of a run has returned
an error. -/
theorem nomsCmdLog_source_error (c : Config) (sched : List Action) (s : State)
    (hrun : nomsCmdLog c sched = some s) :
    (c.validID = true → c.maybeHead = none →
      nomsCmdLog c [Action.main]
        = some { init with mpc := MainPc.returned (some (notACommit none)) } ∧
      (s = init ∨ s.mpc = MainPc.returned (some (notACommit none)))) ∧
    ((c.validID = false ∨ ∃ v, c.maybeHead = some v ∧ c.isCommit v = false) →
      nomsCmdLog c [Action.main] = some { init with mpc := MainPc.panicked } ∧
      (s = init ∨ s.mpc = MainPc.panicked) ∧ ∀ e, s.mpc ≠ MainPc.returned e) ∧
    ((c.validID = false ∨ c.maybeHead = none ∨
        ∃ v, c.maybeHead = some v ∧ c.isCommit v = false) →
      s.iterCreated = false ∧ s.pulls = 0 ∧ s.slots = [] ∧ s.ppc = ProdPc.idle ∧
      s.sink = []) ∧
    (c.validID = true → (∃ v, c.maybeHead = some v ∧ c.isCommit v = true) →
      ∀ e, s.mpc ≠ MainPc.returned (some e)) := by
  have hi := Inv_reach c sched s hrun
  refine ⟨?_, ?_, ?_, ?_⟩
  · intro h1 h2
    have hget := getDataset_absent c h1 h2
    constructor
    · simp [nomsCmdLog, run, step, stepMain, init, hget]
    · rcases Inv_cases c s hi with hs | ⟨hb, m, hm, hs⟩ | ⟨hc, hic, hp⟩
      · exact Or.inl hs
      · subst hs
        rcases hm with ⟨_, hm⟩ | ⟨hm, _⟩
        · rw [hget] at hm; cases hm
        · exact Or.inr hm
      · simp [headIsCommit, hget] at hc
  · intro h1
    have hget := (getDataset_none_iff c).mpr h1
    refine ⟨by simp [nomsCmdLog, run, step, stepMain, init, hget], ?_⟩
    rcases Inv_cases c s hi with hs | ⟨hb, m, hm, hs⟩ | ⟨hc, hic, hp⟩
    · subst hs
      exact ⟨Or.inl rfl, by intro e he; simp [init] at he⟩
    · subst hs
      rcases hm with ⟨hm, _⟩ | ⟨_, hm⟩
      · subst hm
        exact ⟨Or.inr rfl, by intro e he; simp at he⟩
      · rw [hget] at hm; cases hm
    · simp [headIsCommit, hget] at hc
  · intro h1
    have hb : headIsCommit c = false := by
      rcases h1 with h1 | h1 | h1
      · simp [headIsCommit, (getDataset_none_iff c).mpr (Or.inl h1)]
      · cases hv : c.validID with
        | true => simp [headIsCommit, getDataset_absent c hv h1]
        | false => simp [headIsCommit, (getDataset_none_iff c).mpr (Or.inl hv)]
      · simp [headIsCommit, (getDataset_none_iff c).mpr (Or.inr h1)]
    rcases Inv_cases c s hi with hs | ⟨_, m, hm, hs⟩ | ⟨hc, hic, hp⟩
    · subst hs
      exact ⟨rfl, rfl, rfl, rfl, rfl⟩
    · subst hs
      exact ⟨rfl, rfl, rfl, rfl, rfl⟩
    · rw [hb] at hc; cases hc
  · rintro h1 ⟨v, h2, h3⟩ e he
    have hget := getDataset_of_commit c v h1 h2 h3
    rcases Inv_cases c s hi with hs | ⟨hb, m, hm, hs⟩ | ⟨hc, hic, hp⟩
    · subst hs; simp [init] at he
    · simp [headIsCommit, hget] at hb
    · have := hp.main
      simp [MainInv, he] at this

/-- C6, as the code has it, at a dataset without a head. -/
theorem nomsCmdLog_source_error_witness :
    cfgNoHead.validID = true ∧ cfgNoHead.maybeHead = none ∧
      nomsCmdLog cfgNoHead [Action.main] = some finalNoHead ∧
      finalNoHead.mpc
        = MainPc.returned (some ⟨"\x7b\x7b<nil> [] []\x7d\x7d is not a Commit object"⟩) ∧
      finalNoHead.iterCreated = false ∧ finalNoHead.pulls = 0 ∧ finalNoHead.slots = [] ∧
      finalNoHead.ppc = ProdPc.idle ∧ finalNoHead.sink = [] :=
  ⟨rfl, rfl, by decide, rfl,
    (nomsCmdLog_source_error cfgNoHead [Action.main] finalNoHead (by decide)).2.2.1
      (Or.inr (Or.inl rfl))⟩

/-- C6 as stated fails: on a dataset that refers to a value that is not a
commit, `nomsCmdLog` panics at line 166 and in no state of any run has it
returned a value. -/
theorem nomsCmdLog_source_error_counterexample :
    cfgNotCommit.validID = true ∧ cfgNotCommit.maybeHead = some 7 ∧
      cfgNotCommit.isCommit 7 = false ∧
      nomsCmdLog cfgNotCommit [Action.main] = some statePanicked ∧
      statePanicked.mpc = MainPc.panicked ∧
      (∀ a, step cfgNotCommit statePanicked a = none) ∧
      ∀ sched s, nomsCmdLog cfgNotCommit sched = some s → ∀ e, s.mpc ≠ MainPc.returned e := by
  refine ⟨rfl, rfl, rfl, by decide, rfl, ?_, ?_⟩
  · intro a
    cases a with
    | main => rfl
    | copy r => rfl
    | producer => rfl
    | task i => rfl
  · intro sched s hrun e he
    have hget : getDataset cfgNotCommit = none := by decide
    rcases Inv_cases cfgNotCommit s (Inv_reach cfgNotCommit sched s hrun) with
      hs | ⟨hb, m, hm, hs⟩ | ⟨hc, hic, hp⟩
    · subst hs; simp [init] at he
    · subst hs
      rcases hm with ⟨hm, _⟩ | ⟨_, hm⟩
      · subst hm; simp at he
      · rw [hget] at hm; cases hm
    · simp [headIsCommit, hget] at hc

/-- C7, the run that breaks it.  With two nodes and a failed write of the
first rendering, `nomsCmdLog` returns while the goroutine of the second
channel is blocked in `ch <- buff.Bytes()`; no goroutine can move any more, so
it stays blocked for ever. -/
theorem nomsCmdLog_leaked_render_task :
    0 < cfgTwo.parallelism ∧ nomsCmdLog cfgTwo schedLeak = some finalLeak ∧
      finalLeak.sinkErr = true ∧ finalLeak.returned = true ∧
      finalLeak.mpc = MainPc.returned none ∧ finalLeak.queue = [] ∧
      finalLeak.slots.get? 1 = some ⟨20, SlotPc.sending [20, 21]⟩ ∧
      ∀ a, step cfgTwo finalLeak a = none := by
  refine ⟨by decide, by decide, rfl, rfl, rfl, rfl, rfl, ?_⟩
  intro a
  cases a with
  | main => rfl
  | copy r => rfl
  | producer => rfl
  | task i =>
    cases i with
    | zero => rfl
    | succ i =>
      cases i with
      | zero => rfl
      | succ i => rfl

/-- C8, as the code has it.  With `parallelism ≥ 1`, in every state a run of
`nomsCmdLog` reaches, at most `parallelism + 1` render goroutines are started
and have not delivered their result, at most `parallelism + 2` channels are
made and not yet read by the calling goroutine, and `bytesChan` holds at most
`parallelism` channels. -/
theorem nomsCmdLog_concurrency_bound (c : Config) (hK : 0 < c.parallelism)
    (sched : List Action) (s : State) (hrun : nomsCmdLog c sched = some s) :
    inFlight s ≤ c.parallelism + 1 ∧ unreadSlots s ≤ c.parallelism + 2 ∧
      s.queue.length ≤ c.parallelism := by
  have hi := Inv_reach c sched s hrun
  have hq : s.queue.length ≤ c.parallelism := by
    rcases Inv_cases c s hi with hs | ⟨hb, m, hm, hs⟩ | ⟨hc, hic, hp⟩
    · subst hs; simp [init]
    · subst hs; simp [init]
    · exact hp.qcap
  have := hK
  exact ⟨inFlight_bound c s hi, unreadSlots_bound c s hi, hq⟩

/-- C8, as the code has it, at a state with three channels not yet read. -/
theorem nomsCmdLog_concurrency_bound_witness :
    0 < cfgThree.parallelism ∧ nomsCmdLog cfgThree schedThree = some stateThree ∧
      inFlight stateThree ≤ cfgThree.parallelism + 1 ∧
      unreadSlots stateThree ≤ cfgThree.parallelism + 2 ∧
      stateThree.queue.length ≤ cfgThree.parallelism :=
  ⟨by decide, by decide,
    nomsCmdLog_concurrency_bound cfgThree (by decide) schedThree stateThree (by decide)⟩

/-- C8 as stated fails: with `parallelism = 1` and three nodes a run reaches a
state with two render goroutines started and not completed and with three
channels made and not yet read by the calling goroutine (one awaited at line
204, one in `bytesChan`, one the producer is about to send). -/
theorem nomsCmdLog_concurrency_bound_counterexample :
    1 ≤ cfgThree.parallelism ∧
      nomsCmdLog cfgThree schedThree = some stateThree ∧
      inFlight stateThree = 2 ∧ ¬ (inFlight stateThree ≤ cfgThree.parallelism) ∧
      unreadSlots stateThree = 3 ∧ ¬ (unreadSlots stateThree ≤ cfgThree.parallelism) ∧
      ¬ (unreadSlots stateThree ≤ cfgThree.parallelism + 1) :=
  ⟨by decide, by decide, by decide, by decide, by decide, by decide, by decide⟩

/-- C9, as the code has it.  Let `printCommit` fail for the node `k`, and
compare with any formatting routine that writes the same bytes for the other
nodes of the same history.  In runs without a failed write, the pager receives
the renderings in the order of the nodes, the rendering received for a node
other than `k` is the same under both routines, and the value the goroutine of
`k` sends on its channel is exactly the bytes `printCommit` left in the
buffer: the failure is dropped and nothing marks it. -/
theorem nomsCmdLog_failure_isolation (c c' : Config) (k : LogNode)
    (hfail : (c.printCommit k).2 = true) (hnodes : nodesOf c' = nodesOf c)
    (hagree : ∀ n, n ≠ k → (c'.printCommit n).1 = (c.printCommit n).1)
    (sched sched' : List Action) (s s' : State)
    (hrun : nomsCmdLog c sched = some s) (hrun' : nomsCmdLog c' sched' = some s')
    (hok : s.sinkErr = false) (hok' : s'.sinkErr = false) :
    s.sink = ((nodesOf c).take s.sink.length).map (rendering c) ∧
    (∀ (i : Nat) (n : LogNode) (x y : Bytes), (nodesOf c)[i]? = some n → n ≠ k →
      s.sink[i]? = some x → s'.sink[i]? = some y → x = y) ∧
    (∀ (i : Nat) (t : Slot) (b : Bytes), s.slots[i]? = some t → t.node = k →
      t.pc = SlotPc.sending b → b = (c.printCommit k).1) := by
  have hi := Inv_reach c sched s hrun
  have hi' := Inv_reach c' sched' s' hrun'
  have := hfail
  refine ⟨sink_of_ok c s hi hok, ?_, ?_⟩
  · intro i n x y hn hne hx hy
    obtain ⟨n1, a1, a2⟩ := sink_get c s hi hok i x hx
    obtain ⟨n2, b1, b2⟩ := sink_get c' s' hi' hok' i y hy
    rw [hnodes] at b1
    rw [hn] at a1 b1
    cases a1
    cases b1
    rw [a2, b2]
    exact (hagree n hne).symm
  · intro i t b ht hk hb
    rw [← hk]
    exact slot_value c s hi i t b ht hb

/-- C9, as the code has it, at a `printCommit` that fails on the first node. -/
theorem nomsCmdLog_failure_isolation_witness :
    (cfgFail.printCommit 10).2 = true ∧ nomsCmdLog cfgFail schedRev = some finalFail ∧
      nomsCmdLog cfgTwo schedRev = some finalRev ∧
      finalFail.sink = [[10], [20, 21]] ∧ finalRev.sink = [[10, 11], [20, 21]] ∧
      ∀ (i : Nat) (n : LogNode) (x y : Bytes), (nodesOf cfgFail)[i]? = some n → n ≠ 10 →
        finalFail.sink[i]? = some x → finalRev.sink[i]? = some y → x = y :=
  ⟨by decide, by decide, by decide, rfl, rfl,
    (nomsCmdLog_failure_isolation cfgFail cfgTwo 10 (by decide) (by decide)
      (by intro n hn; simp [cfgFail, cfgTwo, hn]) schedRev schedRev finalFail finalRev
      (by decide) (by decide) rfl rfl).2.1⟩

/-- C9 as stated fails: no reading of the value a render goroutine sends on its
channel tells whether `printCommit` failed, since a failing and a succeeding
call that leave the same bytes in the buffer send the same value. -/
theorem nomsCmdLog_error_marker_counterexample :
    (cfgEmptyFail.printCommit 10).2 = true ∧ (cfgEmptyOk.printCommit 10).2 = false ∧
      stepTask cfgEmptyFail stateFormatting 0
        = some { stateFormatting with slots := [⟨10, SlotPc.sending []⟩] } ∧
      stepTask cfgEmptyOk stateFormatting 0
        = some { stateFormatting with slots := [⟨10, SlotPc.sending []⟩] } ∧
      ¬ ∃ marker : SlotPc → Bool, ∀ (c : Config) (s s' : State) (i : Nat) (n : LogNode),
        s.slots.get? i = some ⟨n, SlotPc.formatting⟩ → stepTask c s i = some s' →
        ∃ t, s'.slots.get? i = some t ∧ marker t.pc = (c.printCommit n).2 := by
  refine ⟨rfl, rfl, by decide, by decide, ?_⟩
  rintro ⟨marker, h⟩
  obtain ⟨t1, a1, a2⟩ := h cfgEmptyFail stateFormatting _ 0 10 rfl rfl
  obtain ⟨t2, b1, b2⟩ := h cfgEmptyOk stateFormatting _ 0 10 rfl rfl
  cases a1
  cases b1
  have a3 : marker (SlotPc.sending []) = true := a2
  have b3 : marker (SlotPc.sending []) = false := b2
  rw [a3] at b3
  cases b3

/-- C10 (line continuation).  Let `lines` be lines that `Readline()` returns
one after the other, such that the number of double quotes in the first `i`
of them is odd for every `i` from 1 below their number.  If the number of
double quotes in all of them is even (and there is at least one line),
`readFromRL` returns the lines, each followed by a newline, concatenated, with
a nil error, having read no further.  If there is no line or the number of
double quotes in all of them is odd, and the next `Readline()` returns an
error, `readFromRL` returns the empty string and that error.  In both cases
the prompt is left at `noms> `. -/
theorem readFromRL_line_continuation (lines : List String)
    (rest : List (Except GoError String)) (prompt : String) (err : GoError)
    (hodd : ∀ i, 0 < i → i < lines.length → totalQuotes (lines.take i) % 2 = 1) :
    (lines ≠ [] → totalQuotes lines % 2 = 0 →
      readFromRL ⟨lines.map Except.ok ++ rest, prompt⟩
        = some ((joinLines lines, none), ⟨rest, "noms> "⟩)) ∧
    (lines = [] ∨ totalQuotes lines % 2 = 1 →
      readFromRL ⟨lines.map Except.ok ++ Except.error err :: rest, prompt⟩
        = some (("", some err), ⟨rest, "noms> "⟩)) := by
  constructor
  · intro hne heven
    obtain ⟨p, hp⟩ := loop_ok lines rest prompt 0 "" hne
      (by intro i a b; simpa using hodd i a b) (by simpa using heven)
    simp only [readFromRL, hp]
    simp
  · intro h
    obtain ⟨p, hp⟩ := loop_err lines rest err prompt 0 ""
      (by
        intro i a b
        rcases Nat.lt_or_ge i lines.length with hlt | hge
        · simpa using hodd i a hlt
        · have : i = lines.length := by omega
          subst this
          rcases h with h | h
          · subst h; simp at a
          · simpa using h)
    simp only [readFromRL, hp]

/-- C10 at a quoted string that runs over two lines. -/
theorem readFromRL_line_continuation_witness :
    (∀ i, 0 < i → i < ["say \"hello", "world\" now"].length →
        totalQuotes (["say \"hello", "world\" now"].take i) % 2 = 1) ∧
      totalQuotes ["say \"hello", "world\" now"] % 2 = 0 ∧
      readFromRL ⟨[Except.ok "say \"hello", Except.ok "world\" now", Except.ok "next"], "noms> "⟩
        = some (("say \"hello\nworld\" now\n", none), ⟨[Except.ok "next"], "noms> "⟩) := by
  have hodd : ∀ i, 0 < i → i < ["say \"hello", "world\" now"].length →
      totalQuotes (["say \"hello", "world\" now"].take i) % 2 = 1 := by
    intro i h0 h1
    have : i = 1 := by simp at h1; omega
    subst this
    decide
  refine ⟨hodd, by decide, ?_⟩
  have := (readFromRL_line_continuation ["say \"hello", "world\" now"] [Except.ok "next"]
    "noms> " ⟨"EOF"⟩ hodd).1 (by decide) (by decide)
  simpa [joinLines] using this

end Noms
